import Mathlib

/-!
# Verification of the `openapi` document-builder library

Shallow embedding of the Go package `github.com/nyxstack/openapi`: a fluent
builder of plain data structures mirroring the OpenAPI 3.x object graph,
plus JSON marshaling/unmarshaling.

JSON documents are modelled as trees (`Json`), Go maps (`map[string]T`) as
association lists that the builders keep sorted by key (Go's `json.Marshal`
emits map keys in sorted order, so the sorted association list is the
canonical observable form of a Go map).  Go `nil` slices/maps/pointers are
`none`; a non-nil empty container is `some []`.  Go numeric JSON values are
modelled abstractly: an `int`-typed numeral carries its `Int`, and a
`float64`-typed numeral is identified by its IEEE-754 bit pattern (this
library only stores and serializes numbers, it never computes with them).
-/

/-- Abstract model of a Go `float64` value: either an opaque IEEE-754 bit
pattern, or the float with an exact integer value (as produced when a JSON
integer numeral is decoded into a `float64`). -/
inductive GoFloat where
  | bits (b : Nat)
  | ofInt (i : Int)
deriving DecidableEq, Repr

/-- A JSON numeral together with the Go type it was produced from. -/
inductive JNum where
  | int (i : Int)
  | float (f : GoFloat)
deriving DecidableEq, Repr

/-- JSON value trees (the output of Go's `encoding/json` at tree level). -/
inductive Json where
  | null
  | bool (b : Bool)
  | num (n : JNum)
  | str (s : String)
  | arr (elems : List Json)
  | obj (fields : List (String × Json))
deriving Inhabited

/-- Build a JSON object from a field list where `none` marks a field that
Go's struct marshaler omits (`omitempty` fields whose value is empty). -/
def collapse (fs : List (String × Option Json)) : List (String × Json) :=
  fs.filterMap (fun p => p.2.map (fun v => (p.1, v)))

/-- Object construction used by every struct marshaler in the model. -/
def mkObj (fs : List (String × Option Json)) : Json :=
  .obj (collapse fs)

/-- Last-wins field lookup in a decoded JSON object (Go's decoder processes
keys in order, so a duplicated key keeps its final value). -/
def getF : List (String × Json) → String → Option Json
  | [], _ => none
  | (k', v) :: rest, k =>
    match getF rest k with
    | some w => some w
    | none => if k = k' then some v else none

/-- First-wins lookup in a marshaler field list (keys are distinct there). -/
def fLook : List (String × Option Json) → String → Option Json
  | [], _ => none
  | (k', v?) :: rest, k => if k = k' then v? else fLook rest k

theorem fLook_eq_none_of_not_mem {fs : List (String × Option Json)} {k : String}
    (h : k ∉ fs.map Prod.fst) : fLook fs k = none := by
  induction fs with
  | nil => rfl
  | cons p rest ih =>
    simp only [List.map_cons, List.mem_cons, not_or] at h
    simp only [fLook, if_neg h.1, ih h.2]

theorem getF_collapse {fs : List (String × Option Json)}
    (hnd : (fs.map Prod.fst).Nodup) (k : String) :
    getF (collapse fs) k = fLook fs k := by
  induction fs with
  | nil => rfl
  | cons p rest ih =>
    obtain ⟨k', v?⟩ := p
    simp only [List.map_cons, List.nodup_cons] at hnd
    cases v? with
    | none =>
      simp only [collapse, List.filterMap_cons, Option.map_none', fLook]
      rw [show (List.filterMap (fun p => p.2.map (fun v => (p.1, v))) rest) = collapse rest from rfl,
        ih hnd.2]
      by_cases hk : k = k'
      · subst hk
        rw [if_pos rfl, fLook_eq_none_of_not_mem hnd.1]
      · rw [if_neg hk]
    | some v =>
      simp only [collapse, List.filterMap_cons, Option.map_some', fLook, getF]
      rw [show (List.filterMap (fun p => p.2.map (fun v => (p.1, v))) rest) = collapse rest from rfl,
        ih hnd.2]
      by_cases hk : k = k'
      · subst hk
        rw [fLook_eq_none_of_not_mem hnd.1, if_pos rfl]
      · rw [if_neg hk]
        cases fLook rest k <;> simp [hk]

theorem sizeOf_getF {kvs : List (String × Json)} {k : String} {v : Json}
    (h : getF kvs k = some v) : sizeOf v < sizeOf kvs := by
  induction kvs with
  | nil => simp [getF] at h
  | cons p rest ih =>
    obtain ⟨k', w⟩ := p
    simp only [getF] at h
    cases hr : getF rest k with
    | some u =>
      rw [hr] at h
      injection h with h'
      subst h'
      have := ih hr
      simp only [List.cons.sizeOf_spec, Prod.mk.sizeOf_spec] at this ⊢
      omega
    | none =>
      rw [hr] at h
      by_cases hk : k = k'
      · rw [if_pos hk] at h
        injection h with h'
        subst h'
        simp only [List.cons.sizeOf_spec, Prod.mk.sizeOf_spec]
        omega
      · rw [if_neg hk] at h
        cases h

/-- Bounded field lookup: like `getF` but carrying the structural-size bound
needed for termination of the recursive decoders. -/
def getFD (kvs : List (String × Json)) (k : String) :
    Option {v : Json // sizeOf v < sizeOf kvs} :=
  match h : getF kvs k with
  | none => none
  | some v => some ⟨v, sizeOf_getF h⟩

theorem getFD_val (kvs : List (String × Json)) (k : String) :
    (getFD kvs k).map Subtype.val = getF kvs k := by
  unfold getFD
  split <;> simp_all

/-! ## Go map model

Go's `json.Marshal` emits map keys in sorted order, so a Go map is
observably a sorted, duplicate-free association list.  The builders keep
this canonical form via ordered insertion. -/

/-- Ordered insertion (replace on equal key), the model of `m[k] = v`. -/
def mapInsert (k : String) (v : α) : List (String × α) → List (String × α)
  | [] => [(k, v)]
  | (k', v') :: rest =>
    if k = k' then (k, v) :: rest
    else if k < k' then (k, v) :: (k', v') :: rest
    else (k', v') :: mapInsert k v rest

/-- Map lookup, the model of `m[k]`. -/
def mapLookup (k : String) : List (String × α) → Option α
  | [] => none
  | (k', v') :: rest => if k = k' then some v' else mapLookup k rest

/-- The canonical-key invariant of a Go map's association-list model. -/
def sKeys (l : List (String × α)) : Prop :=
  l.Pairwise (fun p q => p.1 < q.1)

instance (l : List (String × α)) : Decidable (sKeys l) :=
  inferInstanceAs (Decidable (l.Pairwise _))

theorem mapLookup_insert_self (k : String) (v : α) (l : List (String × α)) :
    mapLookup k (mapInsert k v l) = some v := by
  induction l with
  | nil => simp [mapInsert, mapLookup]
  | cons p rest ih =>
    obtain ⟨k', v'⟩ := p
    by_cases h : k = k'
    · simp [mapInsert, h, mapLookup]
    · by_cases h2 : k < k'
      · simp [mapInsert, h, h2, mapLookup]
      · simp [mapInsert, h, h2, mapLookup, ih]

theorem mapInsert_append_of_lt {l : List (String × α)} {k : String} (v : α)
    (h : ∀ p ∈ l, p.1 < k) : mapInsert k v l = l ++ [(k, v)] := by
  induction l with
  | nil => rfl
  | cons p rest ih =>
    obtain ⟨k', v'⟩ := p
    have hk' : k' < k := h (k', v') (by simp)
    have hne : ¬(k = k') := fun e => absurd (e ▸ hk') (lt_irrefl k')
    have hnlt : ¬(k < k') := fun e => absurd (lt_trans e hk') (lt_irrefl k)
    simp only [mapInsert, if_neg hne, if_neg hnlt, List.cons_append, List.cons.injEq, true_and]
    exact ih (fun p hp => h p (by simp [hp]))

theorem foldl_mapInsert_sorted_aux {l acc : List (String × α)}
    (hs : sKeys l) (hacc : ∀ p ∈ acc, ∀ q ∈ l, p.1 < q.1) :
    l.foldl (fun m p => mapInsert p.1 p.2 m) acc = acc ++ l := by
  induction l generalizing acc with
  | nil => simp
  | cons q rest ih =>
    obtain ⟨hq, hrest⟩ := List.pairwise_cons.mp hs
    simp only [List.foldl_cons]
    rw [mapInsert_append_of_lt q.2 (fun p hp => hacc p hp q (by simp)), ih hrest]
    · simp
    · intro p hp r hr
      rcases List.mem_append.mp hp with hp' | hp'
      · exact hacc p hp' r (by simp [hr])
      · simp only [List.mem_singleton] at hp'
        subst hp'
        exact hq r hr

/-- Re-inserting a canonically sorted association list into an empty map
reproduces it (used for decode-after-encode of map-typed fields). -/
theorem foldl_mapInsert_sorted {l : List (String × α)} (hs : sKeys l) :
    l.foldl (fun m p => mapInsert p.1 p.2 m) [] = l := by
  simpa using foldl_mapInsert_sorted_aux hs (by simp)

/-! ## Field-level codecs

One encoder/decoder pair per Go field shape, mirroring `encoding/json`
semantics: `omitempty` drops zero-valued fields; a decoded field that is
absent keeps the zero value; JSON `null` leaves strings/booleans at their
zero value and sets pointers/slices/maps to `nil`. -/

/-- `string` field with `omitempty`. -/
def strOpt (s : String) : Option Json :=
  if s = "" then none else some (.str s)

/-- `string` field without `omitempty` (always emitted). -/
def strReq (s : String) : Option Json :=
  some (.str s)

/-- `bool` field with `omitempty` (`false` is omitted). -/
def boolOpt (b : Bool) : Option Json :=
  if b then some (.bool true) else none

/-- `*int` field with `omitempty`. -/
def intOpt (o : Option Int) : Option Json :=
  o.map (fun i => .num (.int i))

/-- `*float64` field with `omitempty`. -/
def floatOpt (o : Option GoFloat) : Option Json :=
  o.map (fun f => .num (.float f))

/-- `interface{}` field with `omitempty` (a `nil` interface is omitted). -/
def jsonOpt (o : Option Json) : Option Json := o

/-- Decode a `string` field. -/
def decStrF : Option Json → Except String String
  | none => .ok ""
  | some .null => .ok ""
  | some (.str s) => .ok s
  | some _ => .error "json: cannot unmarshal value into Go value of type string"

/-- Decode a `bool` field. -/
def decBoolF : Option Json → Except String Bool
  | none => .ok false
  | some .null => .ok false
  | some (.bool b) => .ok b
  | some _ => .error "json: cannot unmarshal value into Go value of type bool"

/-- Decode a `*int` field.  A numeral of `float64` origin is accepted by Go
only when integral; integrality of an abstract bit pattern is undetermined,
so only exactly-integer numerals are accepted by the model. -/
def decIntF : Option Json → Except String (Option Int)
  | none => .ok none
  | some .null => .ok none
  | some (.num (.int i)) => .ok (some i)
  | some (.num (.float (.ofInt i))) => .ok (some i)
  | some _ => .error "json: cannot unmarshal value into Go value of type int"

/-- Decode a `*float64` field (any numeral is accepted). -/
def decFloatF : Option Json → Except String (Option GoFloat)
  | none => .ok none
  | some .null => .ok none
  | some (.num (.float f)) => .ok (some f)
  | some (.num (.int i)) => .ok (some (.ofInt i))
  | some _ => .error "json: cannot unmarshal value into Go value of type float64"

/-- Decode an `interface{}` field (`null` yields the nil interface). -/
def decJsonF : Option Json → Except String (Option Json)
  | none => .ok none
  | some .null => .ok none
  | some j => .ok (some j)

theorem decStrF_strOpt (s : String) : decStrF (strOpt s) = .ok s := by
  by_cases h : s = "" <;> simp [strOpt, decStrF, h]

theorem decStrF_strReq (s : String) : decStrF (strReq s) = .ok s := rfl

theorem decBoolF_boolOpt (b : Bool) : decBoolF (boolOpt b) = .ok b := by
  cases b <;> rfl

theorem decIntF_intOpt (o : Option Int) : decIntF (intOpt o) = .ok o := by
  cases o <;> rfl

theorem decFloatF_floatOpt (o : Option GoFloat) : decFloatF (floatOpt o) = .ok o := by
  cases o with
  | none => rfl
  | some f => cases f <;> rfl

/-- Normal form of an `interface{}` field after a decode/encode cycle: a held
JSON `null` becomes the nil interface. -/
def normJsonOpt : Option Json → Option Json
  | some .null => none
  | o => o

theorem decJsonF_jsonOpt (o : Option Json) : decJsonF (jsonOpt o) = .ok (normJsonOpt o) := by
  cases o with
  | none => rfl
  | some j => cases j <;> rfl

/-! ## Container-level codecs -/

/-- Slice field (`[]T`) with `omitempty`: `nil` and empty are both omitted. -/
def arrOpt (enc : α → Json) : Option (List α) → Option Json
  | none => none
  | some [] => none
  | some l => some (.arr (l.map enc))

/-- Decode a slice field; `null` and absence both give the `nil` slice. -/
def decArrF (dec : Json → Except String α) : Option Json → Except String (Option (List α))
  | none => .ok none
  | some .null => .ok none
  | some (.arr es) => do
    let l ← es.mapM dec
    .ok (some l)
  | some _ => .error "json: cannot unmarshal value into Go slice"

/-- Map field (`map[string]T`) with `omitempty`. -/
def mapOptE (enc : α → Json) : Option (List (String × α)) → Option Json
  | none => none
  | some [] => none
  | some l => some (.obj (l.map (fun p => (p.1, enc p.2))))

/-- Map field without `omitempty`: the `nil` map is emitted as `null`. -/
def mapReqE (enc : α → Json) : Option (List (String × α)) → Option Json
  | none => some .null
  | some l => some (.obj (l.map (fun p => (p.1, enc p.2))))

/-- Decode a map field: Go inserts the object's keys into a fresh map (the
model re-canonicalizes by ordered insertion, matching Go map semantics). -/
def decMapF (dec : Json → Except String α) :
    Option Json → Except String (Option (List (String × α)))
  | none => .ok none
  | some .null => .ok none
  | some (.obj kvs) => do
    let l ← kvs.mapM (fun p => do
      let v ← dec p.2
      pure (p.1, v))
    .ok (some (l.foldl (fun m p => mapInsert p.1 p.2 m) []))
  | some _ => .error "json: cannot unmarshal value into Go map"

/-- Pointer field (`*T`) with `omitempty`. -/
def ptrOpt (enc : α → Json) (o : Option α) : Option Json :=
  o.map enc

/-- Decode a pointer field: `null` and absence both give the `nil` pointer. -/
def decPtrF (dec : Json → Except String α) : Option Json → Except String (Option α)
  | none => .ok none
  | some .null => .ok none
  | some j => Except.map some (dec j)

/-- Normal form of an `omitempty` slice after decode/encode: empty → absent. -/
def normArr (norm : α → α) : Option (List α) → Option (List α)
  | none => none
  | some [] => none
  | some l => some (l.map norm)

/-- Normal form of an `omitempty` map after decode/encode: empty → absent. -/
def normMapO (norm : α → α) : Option (List (String × α)) → Option (List (String × α))
  | none => none
  | some [] => none
  | some l => some (l.map (fun p => (p.1, norm p.2)))

/-- Normal form of a non-`omitempty` map after decode/encode. -/
def normMapR (norm : α → α) : Option (List (String × α)) → Option (List (String × α))
  | none => none
  | some l => some (l.map (fun p => (p.1, norm p.2)))

theorem mapM_map_of_forall {l : List α} {d : Json → Except String β}
    {e : α → Json} {n : α → β}
    (h : ∀ x ∈ l, d (e x) = .ok (n x)) :
    (l.map e).mapM d = .ok (l.map n) := by
  induction l with
  | nil => rfl
  | cons x xs ih =>
    simp only [List.map_cons, List.mapM_cons, h x (by simp), ih (fun y hy => h y (by simp [hy]))]
    rfl

theorem mapM_pairs_of_forall {l : List (String × α)} {d : Json → Except String β}
    {e : α → Json} {n : α → β}
    (h : ∀ p ∈ l, d (e p.2) = .ok (n p.2)) :
    (l.map (fun p => (p.1, e p.2))).mapM
        (fun p => do
          let v ← d p.2
          pure (p.1, v)) =
      Except.ok (ε := String) (l.map (fun p => (p.1, n p.2))) := by
  induction l with
  | nil => rfl
  | cons x xs ih =>
    simp only [List.map_cons, List.mapM_cons, h x (by simp), ih (fun y hy => h y (by simp [hy]))]
    rfl

theorem sKeys_map_values {l : List (String × α)} (norm : α → β) (hs : sKeys l) :
    sKeys (l.map (fun p => (p.1, norm p.2))) := by
  unfold sKeys at hs ⊢
  rw [List.pairwise_map]
  exact hs.imp (fun h => h)

theorem decArrF_arrOpt {o : Option (List α)} {d : Json → Except String α}
    {e : α → Json} {n : α → α}
    (h : ∀ l ∈ o, ∀ x ∈ l, d (e x) = .ok (n x)) :
    decArrF d (arrOpt e o) = .ok (normArr n o) := by
  cases o with
  | none => rfl
  | some l =>
    cases l with
    | nil => rfl
    | cons x xs =>
      simp only [arrOpt, decArrF, normArr]
      rw [mapM_map_of_forall (h _ rfl)]
      rfl

theorem decMapF_mapOptE {o : Option (List (String × α))} {d : Json → Except String α}
    {e : α → Json} {n : α → α}
    (hs : ∀ l ∈ o, sKeys l)
    (h : ∀ l ∈ o, ∀ p ∈ l, d (e p.2) = .ok (n p.2)) :
    decMapF d (mapOptE e o) = .ok (normMapO n o) := by
  cases o with
  | none => rfl
  | some l =>
    cases l with
    | nil => rfl
    | cons x xs =>
      simp only [mapOptE, decMapF, normMapO]
      rw [mapM_pairs_of_forall (h _ rfl)]
      show Except.ok _ = _
      rw [foldl_mapInsert_sorted (sKeys_map_values n (hs _ rfl))]

theorem decMapF_mapReqE {o : Option (List (String × α))} {d : Json → Except String α}
    {e : α → Json} {n : α → α}
    (hs : ∀ l ∈ o, sKeys l)
    (h : ∀ l ∈ o, ∀ p ∈ l, d (e p.2) = .ok (n p.2)) :
    decMapF d (mapReqE e o) = .ok (normMapR n o) := by
  cases o with
  | none => rfl
  | some l =>
    simp only [mapReqE, decMapF, normMapR]
    rw [mapM_pairs_of_forall (h _ rfl)]
    show Except.ok _ = _
    rw [foldl_mapInsert_sorted (sKeys_map_values n (hs _ rfl))]

theorem decPtrF_ptrOpt {o : Option α} {d : Json → Except String α}
    {e : α → Json} {n : α → α}
    (h : ∀ x ∈ o, d (e x) = .ok (n x))
    (hnn : ∀ x ∈ o, e x ≠ .null) :
    decPtrF d (ptrOpt e o) = .ok (o.map n) := by
  cases o with
  | none => rfl
  | some x =>
    have h1 := h x rfl
    have h2 := hnn x rfl
    simp only [ptrOpt, Option.map_some']
    unfold decPtrF
    split
    · simp_all
    · simp_all
    · rename_i heq
      injection heq with heq'
      rw [← heq', h1]
      rfl

/-- Element decoder for `string` values inside slices and maps (a `null`
element leaves the zero value, as in Go). -/
def decStrE : Json → Except String String
  | .null => .ok ""
  | .str s => .ok s
  | _ => .error "json: cannot unmarshal value into Go value of type string"

theorem decStrE_str (s : String) : decStrE (.str s) = .ok s := rfl

/-! ## Flat entity types (from `document.go` and friends) -/

/-- `ExternalDocs` (source: `document.go`). -/
structure ExternalDocs where
  description : String
  url : String
deriving DecidableEq, Repr

def encExternalDocs (x : ExternalDocs) : Json :=
  mkObj [("description", strOpt x.description), ("url", strReq x.url)]

def decExternalDocs : Json → Except String ExternalDocs
  | .null => .ok ⟨"", ""⟩
  | .obj kvs => do
    let description ← decStrF (getF kvs "description")
    let url ← decStrF (getF kvs "url")
    .ok ⟨description, url⟩
  | _ => .error "json: cannot unmarshal value into openapi.ExternalDocs"

theorem decExternalDocs_enc (x : ExternalDocs) :
    decExternalDocs (encExternalDocs x) = .ok x := by
  obtain ⟨d, u⟩ := x
  have hnd : (List.map Prod.fst [("description", strOpt d), ("url", strReq u)]).Nodup := by
    simp
  simp only [encExternalDocs, mkObj, decExternalDocs, getF_collapse hnd]
  simp only [fLook, String.reduceEq, reduceIte, decStrF_strOpt, decStrF_strReq]
  rfl

/-! ## Well-formedness helpers (canonical Go-map keys throughout a value) -/

def wfMapB (wfElem : α → Bool) : Option (List (String × α)) → Bool
  | none => true
  | some l => decide (sKeys l) && l.all (fun p => wfElem p.2)

def wfArrB (wfElem : α → Bool) : Option (List α) → Bool
  | none => true
  | some l => l.all wfElem

def wfPtrB (wfElem : α → Bool) : Option α → Bool
  | none => true
  | some x => wfElem x

theorem wfMapB_sKeys {w : α → Bool} {o : Option (List (String × α))}
    (h : wfMapB w o = true) : ∀ l ∈ o, sKeys l := by
  intro l hl
  cases o with
  | none => cases hl
  | some l' =>
    cases hl
    simp only [wfMapB, Bool.and_eq_true, decide_eq_true_eq] at h
    exact h.1

theorem wfMapB_elem {w : α → Bool} {o : Option (List (String × α))}
    (h : wfMapB w o = true) : ∀ l ∈ o, ∀ p ∈ l, w p.2 = true := by
  intro l hl p hp
  cases o with
  | none => cases hl
  | some l' =>
    cases hl
    simp only [wfMapB, Bool.and_eq_true, decide_eq_true_eq, List.all_eq_true] at h
    exact h.2 p hp

theorem wfArrB_elem {w : α → Bool} {o : Option (List α)}
    (h : wfArrB w o = true) : ∀ l ∈ o, ∀ x ∈ l, w x = true := by
  intro l hl x hx
  cases o with
  | none => cases hl
  | some l' =>
    cases hl
    simp only [wfArrB, List.all_eq_true] at h
    exact h x hx

theorem wfPtrB_elem {w : α → Bool} {o : Option α}
    (h : wfPtrB w o = true) : ∀ x ∈ o, w x = true := by
  intro x hx
  cases o with
  | none => cases hx
  | some y => cases hx; exact h

/-- `Contact`.  Modelled from the spec: the `Contact` entity (name, URL,
email, all optional) is part of this repository but its source file is not
under `src/`; only `document.go`'s `WithContact` shows its fields. -/
structure Contact where
  name : String
  url : String
  email : String
deriving DecidableEq, Repr

def encContact (x : Contact) : Json :=
  mkObj [("name", strOpt x.name), ("url", strOpt x.url), ("email", strOpt x.email)]

def decContact : Json → Except String Contact
  | .null => .ok ⟨"", "", ""⟩
  | .obj kvs => do
    let name ← decStrF (getF kvs "name")
    let url ← decStrF (getF kvs "url")
    let email ← decStrF (getF kvs "email")
    .ok ⟨name, url, email⟩
  | _ => .error "json: cannot unmarshal value into openapi.Contact"

theorem decContact_enc (x : Contact) : decContact (encContact x) = .ok x := by
  obtain ⟨n, u, e⟩ := x
  have hnd : (List.map Prod.fst
      [("name", strOpt n), ("url", strOpt u), ("email", strOpt e)]).Nodup := by simp
  simp only [encContact, mkObj, decContact, getF_collapse hnd]
  simp only [fLook, String.reduceEq, reduceIte, decStrF_strOpt]
  rfl

/-- `License`.  Modelled from the spec: the `License` entity (name required,
URL optional); its source file is not under `src/`. -/
structure License where
  name : String
  url : String
deriving DecidableEq, Repr

def encLicense (x : License) : Json :=
  mkObj [("name", strReq x.name), ("url", strOpt x.url)]

def decLicense : Json → Except String License
  | .null => .ok ⟨"", ""⟩
  | .obj kvs => do
    let name ← decStrF (getF kvs "name")
    let url ← decStrF (getF kvs "url")
    .ok ⟨name, url⟩
  | _ => .error "json: cannot unmarshal value into openapi.License"

theorem decLicense_enc (x : License) : decLicense (encLicense x) = .ok x := by
  obtain ⟨n, u⟩ := x
  have hnd : (List.map Prod.fst [("name", strReq n), ("url", strOpt u)]).Nodup := by simp
  simp only [encLicense, mkObj, decLicense, getF_collapse hnd]
  simp only [fLook, String.reduceEq, reduceIte, decStrF_strOpt, decStrF_strReq]
  rfl

/-- `Info`.  Modelled from the spec: API metadata with title, version,
description, terms-of-service URL, optional Contact and License; its source
file is not under `src/` (fields witnessed by `document.go`'s builders). -/
structure Info where
  title : String
  description : String
  termsOfService : String
  contact : Option Contact
  license : Option License
  version : String
deriving DecidableEq, Repr

def encInfo (x : Info) : Json :=
  mkObj [("title", strReq x.title), ("description", strOpt x.description),
    ("termsOfService", strOpt x.termsOfService),
    ("contact", ptrOpt encContact x.contact),
    ("license", ptrOpt encLicense x.license),
    ("version", strReq x.version)]

def decInfo : Json → Except String Info
  | .null => .ok ⟨"", "", "", none, none, ""⟩
  | .obj kvs => do
    let title ← decStrF (getF kvs "title")
    let description ← decStrF (getF kvs "description")
    let termsOfService ← decStrF (getF kvs "termsOfService")
    let contact ← decPtrF decContact (getF kvs "contact")
    let license ← decPtrF decLicense (getF kvs "license")
    let version ← decStrF (getF kvs "version")
    .ok ⟨title, description, termsOfService, contact, license, version⟩
  | _ => .error "json: cannot unmarshal value into openapi.Info"

theorem decInfo_enc (x : Info) : decInfo (encInfo x) = .ok x := by
  obtain ⟨t, d, ts, c, li, v⟩ := x
  have hnd : (List.map Prod.fst [("title", strReq t), ("description", strOpt d),
      ("termsOfService", strOpt ts), ("contact", ptrOpt encContact c),
      ("license", ptrOpt encLicense li), ("version", strReq v)]).Nodup := by simp
  simp only [encInfo, mkObj, decInfo, getF_collapse hnd]
  simp only [fLook, String.reduceEq, reduceIte, decStrF_strOpt, decStrF_strReq]
  rw [decPtrF_ptrOpt (n := id) (fun y _ => by rw [decContact_enc]; rfl)
      (fun y _ => by simp [encContact, mkObj]),
    decPtrF_ptrOpt (n := id) (fun y _ => by rw [decLicense_enc]; rfl)
      (fun y _ => by simp [encLicense, mkObj])]
  simp only [Option.map_id]
  rfl

/-- `Tag`.  Modelled from the spec: name, optional description, optional
external docs; its source file is not under `src/` (fields witnessed by
`document.go`'s `AddTag`/`AddTagWithDocs`). -/
structure Tag where
  name : String
  description : String
  externalDocs : Option ExternalDocs
deriving DecidableEq, Repr

def encTag (x : Tag) : Json :=
  mkObj [("name", strReq x.name), ("description", strOpt x.description),
    ("externalDocs", ptrOpt encExternalDocs x.externalDocs)]

def decTag : Json → Except String Tag
  | .null => .ok ⟨"", "", none⟩
  | .obj kvs => do
    let name ← decStrF (getF kvs "name")
    let description ← decStrF (getF kvs "description")
    let externalDocs ← decPtrF decExternalDocs (getF kvs "externalDocs")
    .ok ⟨name, description, externalDocs⟩
  | _ => .error "json: cannot unmarshal value into openapi.Tag"

theorem decTag_enc (x : Tag) : decTag (encTag x) = .ok x := by
  obtain ⟨n, d, ed⟩ := x
  have hnd : (List.map Prod.fst [("name", strReq n), ("description", strOpt d),
      ("externalDocs", ptrOpt encExternalDocs ed)]).Nodup := by simp
  simp only [encTag, mkObj, decTag, getF_collapse hnd]
  simp only [fLook, String.reduceEq, reduceIte, decStrF_strOpt, decStrF_strReq]
  rw [decPtrF_ptrOpt (n := id) (fun y _ => by rw [decExternalDocs_enc]; rfl)
      (fun y _ => by simp [encExternalDocs, mkObj])]
  simp only [Option.map_id]
  rfl

/-- `ServerVariable`.  Modelled from the spec: a supporting server-variable
record (enum, default, description); its source file is not under `src/`
(the type is witnessed by `document.go`'s `AddServer`). -/
structure ServerVariable where
  enum : Option (List String)
  default : String
  description : String
deriving DecidableEq, Repr

def encServerVariable (x : ServerVariable) : Json :=
  mkObj [("enum", arrOpt .str x.enum), ("default", strReq x.default),
    ("description", strOpt x.description)]

def decServerVariable : Json → Except String ServerVariable
  | .null => .ok ⟨none, "", ""⟩
  | .obj kvs => do
    let enum ← decArrF decStrE (getF kvs "enum")
    let dflt ← decStrF (getF kvs "default")
    let description ← decStrF (getF kvs "description")
    .ok ⟨enum, dflt, description⟩
  | _ => .error "json: cannot unmarshal value into openapi.ServerVariable"

def normServerVariable (x : ServerVariable) : ServerVariable :=
  { x with enum := normArr id x.enum }

theorem decServerVariable_enc (x : ServerVariable) :
    decServerVariable (encServerVariable x) = .ok (normServerVariable x) := by
  obtain ⟨en, df, d⟩ := x
  have hnd : (List.map Prod.fst [("enum", arrOpt Json.str en), ("default", strReq df),
      ("description", strOpt d)]).Nodup := by simp
  simp only [encServerVariable, mkObj, decServerVariable, getF_collapse hnd]
  simp only [fLook, String.reduceEq, reduceIte, decStrF_strOpt, decStrF_strReq]
  rw [decArrF_arrOpt (n := id) (fun l _ s _ => decStrE_str s)]
  cases en with
  | none => rfl
  | some l =>
    cases l with
    | nil => rfl
    | cons a as => rfl

/-- `Server`.  Modelled from the spec: URL, description and a variables map;
its source file is not under `src/` (witnessed by `document.go`'s
`AddServer`, which initializes `Variables` to an empty map). -/
structure Server where
  url : String
  description : String
  vars : Option (List (String × ServerVariable))
deriving DecidableEq, Repr

def encServer (x : Server) : Json :=
  mkObj [("url", strReq x.url), ("description", strOpt x.description),
    ("variables", mapOptE encServerVariable x.vars)]

def decServer : Json → Except String Server
  | .null => .ok ⟨"", "", none⟩
  | .obj kvs => do
    let url ← decStrF (getF kvs "url")
    let description ← decStrF (getF kvs "description")
    let vars ← decMapF decServerVariable (getF kvs "variables")
    .ok ⟨url, description, vars⟩
  | _ => .error "json: cannot unmarshal value into openapi.Server"

def normServer (x : Server) : Server :=
  { x with vars := normMapO normServerVariable x.vars }

def wfServer (x : Server) : Bool :=
  wfMapB (fun _ => true) x.vars

theorem decServer_enc (x : Server) (hwf : wfServer x = true) :
    decServer (encServer x) = .ok (normServer x) := by
  obtain ⟨u, d, vs⟩ := x
  have hnd : (List.map Prod.fst [("url", strReq u), ("description", strOpt d),
      ("variables", mapOptE encServerVariable vs)]).Nodup := by simp
  simp only [encServer, mkObj, decServer, getF_collapse hnd]
  simp only [fLook, String.reduceEq, reduceIte, decStrF_strOpt, decStrF_strReq]
  rw [decMapF_mapOptE (n := normServerVariable) (wfMapB_sKeys hwf)
    (fun l _ p _ => decServerVariable_enc p.2)]
  rfl

/-- `Discriminator` (source: `schema.go`). -/
structure Discriminator where
  propertyName : String
  mapping : Option (List (String × String))
deriving DecidableEq, Repr

def encDiscriminator (x : Discriminator) : Json :=
  mkObj [("propertyName", strReq x.propertyName), ("mapping", mapOptE .str x.mapping)]

def decDiscriminator : Json → Except String Discriminator
  | .null => .ok ⟨"", none⟩
  | .obj kvs => do
    let propertyName ← decStrF (getF kvs "propertyName")
    let mapping ← decMapF decStrE (getF kvs "mapping")
    .ok ⟨propertyName, mapping⟩
  | _ => .error "json: cannot unmarshal value into openapi.Discriminator"

def normDiscriminator (x : Discriminator) : Discriminator :=
  { x with mapping := normMapO id x.mapping }

def wfDiscriminator (x : Discriminator) : Bool :=
  wfMapB (fun _ => true) x.mapping

theorem decDiscriminator_enc (x : Discriminator) (hwf : wfDiscriminator x = true) :
    decDiscriminator (encDiscriminator x) = .ok (normDiscriminator x) := by
  obtain ⟨pn, mp⟩ := x
  have hnd : (List.map Prod.fst [("propertyName", strReq pn),
      ("mapping", mapOptE Json.str mp)]).Nodup := by simp
  simp only [encDiscriminator, mkObj, decDiscriminator, getF_collapse hnd]
  simp only [fLook, String.reduceEq, reduceIte, decStrF_strReq]
  rw [decMapF_mapOptE (n := id) (wfMapB_sKeys hwf) (fun l _ p _ => decStrE_str p.2)]
  rfl

/-- `XML` (source: `schema.go`). -/
structure XML where
  name : String
  ns : String
  pfx : String
  attr : Bool
  wrapped : Bool
deriving DecidableEq, Repr

def encXML (x : XML) : Json :=
  mkObj [("name", strOpt x.name), ("namespace", strOpt x.ns),
    ("prefix", strOpt x.pfx), ("attribute", boolOpt x.attr),
    ("wrapped", boolOpt x.wrapped)]

def decXML : Json → Except String XML
  | .null => .ok ⟨"", "", "", false, false⟩
  | .obj kvs => do
    let name ← decStrF (getF kvs "name")
    let ns ← decStrF (getF kvs "namespace")
    let pfx ← decStrF (getF kvs "prefix")
    let attr ← decBoolF (getF kvs "attribute")
    let wrapped ← decBoolF (getF kvs "wrapped")
    .ok ⟨name, ns, pfx, attr, wrapped⟩
  | _ => .error "json: cannot unmarshal value into openapi.XML"

theorem decXML_enc (x : XML) : decXML (encXML x) = .ok x := by
  obtain ⟨n, ns, pr, a, w⟩ := x
  have hnd : (List.map Prod.fst [("name", strOpt n), ("namespace", strOpt ns),
      ("prefix", strOpt pr), ("attribute", boolOpt a), ("wrapped", boolOpt w)]).Nodup := by simp
  simp only [encXML, mkObj, decXML, getF_collapse hnd]
  simp only [fLook, String.reduceEq, reduceIte, decStrF_strOpt, decBoolF_boolOpt]
  rfl

/-- `Example` (source: `example.go`).  The `Extensions` field carries the
tag `json:"-"`, so it is never marshaled nor unmarshaled. -/
structure Example where
  summary : String
  description : String
  value : Option Json
  externalValue : String
  extensions : Option (List (String × Json))

def encExample (x : Example) : Json :=
  mkObj [("summary", strOpt x.summary), ("description", strOpt x.description),
    ("value", jsonOpt x.value), ("externalValue", strOpt x.externalValue)]

def decExample : Json → Except String Example
  | .null => .ok ⟨"", "", none, "", none⟩
  | .obj kvs => do
    let summary ← decStrF (getF kvs "summary")
    let description ← decStrF (getF kvs "description")
    let value ← decJsonF (getF kvs "value")
    let externalValue ← decStrF (getF kvs "externalValue")
    .ok ⟨summary, description, value, externalValue, none⟩
  | _ => .error "json: cannot unmarshal value into openapi.Example"

def normExample (x : Example) : Example :=
  { x with value := normJsonOpt x.value, extensions := none }

theorem decExample_enc (x : Example) : decExample (encExample x) = .ok (normExample x) := by
  obtain ⟨s, d, v, ev, ex⟩ := x
  have hnd : (List.map Prod.fst [("summary", strOpt s), ("description", strOpt d),
      ("value", jsonOpt v), ("externalValue", strOpt ev)]).Nodup := by simp
  simp only [encExample, mkObj, decExample, getF_collapse hnd]
  simp only [fLook, String.reduceEq, reduceIte, decStrF_strOpt, decJsonF_jsonOpt]
  rfl

/-- `Encoding`.  Modelled from the spec: a flat supporting record of
optional fields for `MediaType.Encoding`; its source file is not under
`src/` (the type is referenced by `media_type.go`). -/
structure Encoding where
  contentType : String
  style : String
  explode : Bool
  allowReserved : Bool
deriving DecidableEq, Repr

def encEncoding (x : Encoding) : Json :=
  mkObj [("contentType", strOpt x.contentType), ("style", strOpt x.style),
    ("explode", boolOpt x.explode), ("allowReserved", boolOpt x.allowReserved)]

def decEncoding : Json → Except String Encoding
  | .null => .ok ⟨"", "", false, false⟩
  | .obj kvs => do
    let contentType ← decStrF (getF kvs "contentType")
    let style ← decStrF (getF kvs "style")
    let explode ← decBoolF (getF kvs "explode")
    let allowReserved ← decBoolF (getF kvs "allowReserved")
    .ok ⟨contentType, style, explode, allowReserved⟩
  | _ => .error "json: cannot unmarshal value into openapi.Encoding"

theorem decEncoding_enc (x : Encoding) : decEncoding (encEncoding x) = .ok x := by
  obtain ⟨ct, st, ex, ar⟩ := x
  have hnd : (List.map Prod.fst [("contentType", strOpt ct), ("style", strOpt st),
      ("explode", boolOpt ex), ("allowReserved", boolOpt ar)]).Nodup := by simp
  simp only [encEncoding, mkObj, decEncoding, getF_collapse hnd]
  simp only [fLook, String.reduceEq, reduceIte, decStrF_strOpt, decBoolF_boolOpt]
  rfl

/-- `SecurityRequirement` (source: `document.go`): `map[string][]string`.
A value of this type can itself be the `nil` map, so occurrences inside
slices are modelled as `Option SecurityRequirement`. -/
abbrev SecurityRequirement := List (String × Option (List String))

/-- Marshal a `[]string` value occurring inside a map (no `omitempty`:
the `nil` slice becomes `null`). -/
def encStrListV : Option (List String) → Json
  | none => .null
  | some l => .arr (l.map .str)

def decStrListV : Json → Except String (Option (List String))
  | .null => .ok none
  | .arr es => Except.map some (es.mapM decStrE)
  | _ => .error "json: cannot unmarshal value into Go value of type []string"

theorem decStrListV_enc (o : Option (List String)) : decStrListV (encStrListV o) = .ok o := by
  cases o with
  | none => rfl
  | some l =>
    simp only [encStrListV, decStrListV]
    rw [mapM_map_of_forall (n := id) (fun s _ => decStrE_str s)]
    simp [Except.map]

/-- Marshal a `SecurityRequirement` occurring as a slice element (the `nil`
map becomes `null`). -/
def encSecReqE : Option SecurityRequirement → Json
  | none => .null
  | some l => .obj (l.map (fun p => (p.1, encStrListV p.2)))

def decSecReqE : Json → Except String (Option SecurityRequirement)
  | .null => .ok none
  | .obj kvs => do
    let l ← kvs.mapM (fun p => do
      let v ← decStrListV p.2
      pure (p.1, v))
    .ok (some (l.foldl (fun m p => mapInsert p.1 p.2 m) []))
  | _ => .error "json: cannot unmarshal value into openapi.SecurityRequirement"

def wfSecReqE : Option SecurityRequirement → Bool
  | none => true
  | some l => decide (sKeys l)

theorem decSecReqE_enc {o : Option SecurityRequirement} (hwf : wfSecReqE o = true) :
    decSecReqE (encSecReqE o) = .ok o := by
  cases o with
  | none => rfl
  | some l =>
    simp only [wfSecReqE, decide_eq_true_eq] at hwf
    simp only [encSecReqE, decSecReqE]
    rw [mapM_pairs_of_forall (n := id) (fun p _ => decStrListV_enc p.2)]
    show Except.ok _ = _
    rw [foldl_mapInsert_sorted (sKeys_map_values id hwf)]
    simp

/-- `OAuthFlow` (source: `security.go`). -/
structure OAuthFlow where
  authorizationUrl : String
  tokenUrl : String
  refreshUrl : String
  scopes : Option (List (String × String))
deriving DecidableEq, Repr

def encOAuthFlow (x : OAuthFlow) : Json :=
  mkObj [("authorizationUrl", strOpt x.authorizationUrl), ("tokenUrl", strOpt x.tokenUrl),
    ("refreshUrl", strOpt x.refreshUrl), ("scopes", mapReqE .str x.scopes)]

def decOAuthFlow : Json → Except String OAuthFlow
  | .null => .ok ⟨"", "", "", none⟩
  | .obj kvs => do
    let authorizationUrl ← decStrF (getF kvs "authorizationUrl")
    let tokenUrl ← decStrF (getF kvs "tokenUrl")
    let refreshUrl ← decStrF (getF kvs "refreshUrl")
    let scopes ← decMapF decStrE (getF kvs "scopes")
    .ok ⟨authorizationUrl, tokenUrl, refreshUrl, scopes⟩
  | _ => .error "json: cannot unmarshal value into openapi.OAuthFlow"

def normOAuthFlow (x : OAuthFlow) : OAuthFlow :=
  { x with scopes := normMapR id x.scopes }

def wfOAuthFlow (x : OAuthFlow) : Bool :=
  wfMapB (fun _ => true) x.scopes

theorem decOAuthFlow_enc (x : OAuthFlow) (hwf : wfOAuthFlow x = true) :
    decOAuthFlow (encOAuthFlow x) = .ok (normOAuthFlow x) := by
  obtain ⟨au, tu, ru, sc⟩ := x
  have hnd : (List.map Prod.fst [("authorizationUrl", strOpt au), ("tokenUrl", strOpt tu),
      ("refreshUrl", strOpt ru), ("scopes", mapReqE Json.str sc)]).Nodup := by simp
  simp only [encOAuthFlow, mkObj, decOAuthFlow, getF_collapse hnd]
  simp only [fLook, String.reduceEq, reduceIte, decStrF_strOpt]
  rw [decMapF_mapReqE (n := id) (wfMapB_sKeys hwf) (fun l _ p _ => decStrE_str p.2)]
  rfl

/-- `OAuthFlows` (source: `security.go`). -/
structure OAuthFlows where
  implicit : Option OAuthFlow
  password : Option OAuthFlow
  clientCredentials : Option OAuthFlow
  authorizationCode : Option OAuthFlow
deriving DecidableEq, Repr

def encOAuthFlows (x : OAuthFlows) : Json :=
  mkObj [("implicit", ptrOpt encOAuthFlow x.implicit),
    ("password", ptrOpt encOAuthFlow x.password),
    ("clientCredentials", ptrOpt encOAuthFlow x.clientCredentials),
    ("authorizationCode", ptrOpt encOAuthFlow x.authorizationCode)]

def decOAuthFlows : Json → Except String OAuthFlows
  | .null => .ok ⟨none, none, none, none⟩
  | .obj kvs => do
    let implicit ← decPtrF decOAuthFlow (getF kvs "implicit")
    let password ← decPtrF decOAuthFlow (getF kvs "password")
    let clientCredentials ← decPtrF decOAuthFlow (getF kvs "clientCredentials")
    let authorizationCode ← decPtrF decOAuthFlow (getF kvs "authorizationCode")
    .ok ⟨implicit, password, clientCredentials, authorizationCode⟩
  | _ => .error "json: cannot unmarshal value into openapi.OAuthFlows"

def normOAuthFlows (x : OAuthFlows) : OAuthFlows :=
  ⟨x.implicit.map normOAuthFlow, x.password.map normOAuthFlow,
    x.clientCredentials.map normOAuthFlow, x.authorizationCode.map normOAuthFlow⟩

def wfOAuthFlows (x : OAuthFlows) : Bool :=
  wfPtrB wfOAuthFlow x.implicit && wfPtrB wfOAuthFlow x.password &&
    wfPtrB wfOAuthFlow x.clientCredentials && wfPtrB wfOAuthFlow x.authorizationCode

theorem decOAuthFlows_enc (x : OAuthFlows) (hwf : wfOAuthFlows x = true) :
    decOAuthFlows (encOAuthFlows x) = .ok (normOAuthFlows x) := by
  obtain ⟨im, pw, cc, ac⟩ := x
  simp only [wfOAuthFlows, Bool.and_eq_true] at hwf
  have hnd : (List.map Prod.fst [("implicit", ptrOpt encOAuthFlow im),
      ("password", ptrOpt encOAuthFlow pw),
      ("clientCredentials", ptrOpt encOAuthFlow cc),
      ("authorizationCode", ptrOpt encOAuthFlow ac)]).Nodup := by simp
  simp only [encOAuthFlows, mkObj, decOAuthFlows, getF_collapse hnd]
  simp only [fLook, String.reduceEq, reduceIte]
  rw [decPtrF_ptrOpt (n := normOAuthFlow)
      (fun y hy => decOAuthFlow_enc y (wfPtrB_elem hwf.1.1.1 y hy))
      (fun y _ => by simp [encOAuthFlow, mkObj]),
    decPtrF_ptrOpt (n := normOAuthFlow)
      (fun y hy => decOAuthFlow_enc y (wfPtrB_elem hwf.1.1.2 y hy))
      (fun y _ => by simp [encOAuthFlow, mkObj]),
    decPtrF_ptrOpt (n := normOAuthFlow)
      (fun y hy => decOAuthFlow_enc y (wfPtrB_elem hwf.1.2 y hy))
      (fun y _ => by simp [encOAuthFlow, mkObj]),
    decPtrF_ptrOpt (n := normOAuthFlow)
      (fun y hy => decOAuthFlow_enc y (wfPtrB_elem hwf.2 y hy))
      (fun y _ => by simp [encOAuthFlow, mkObj])]
  rfl

/-- `SecurityScheme` (source: `security.go`).  The Go field `In` is spelled
`in_` because `in` is reserved in Lean. -/
structure SecurityScheme where
  type : String
  description : String
  name : String
  in_ : String
  scheme : String
  bearerFormat : String
  flows : Option OAuthFlows
  openIdConnectUrl : String
deriving DecidableEq, Repr

def encSecurityScheme (x : SecurityScheme) : Json :=
  mkObj [("type", strReq x.type), ("description", strOpt x.description),
    ("name", strOpt x.name), ("in", strOpt x.in_), ("scheme", strOpt x.scheme),
    ("bearerFormat", strOpt x.bearerFormat), ("flows", ptrOpt encOAuthFlows x.flows),
    ("openIdConnectUrl", strOpt x.openIdConnectUrl)]

def decSecurityScheme : Json → Except String SecurityScheme
  | .null => .ok ⟨"", "", "", "", "", "", none, ""⟩
  | .obj kvs => do
    let type ← decStrF (getF kvs "type")
    let description ← decStrF (getF kvs "description")
    let name ← decStrF (getF kvs "name")
    let in_ ← decStrF (getF kvs "in")
    let scheme ← decStrF (getF kvs "scheme")
    let bearerFormat ← decStrF (getF kvs "bearerFormat")
    let flows ← decPtrF decOAuthFlows (getF kvs "flows")
    let openIdConnectUrl ← decStrF (getF kvs "openIdConnectUrl")
    .ok ⟨type, description, name, in_, scheme, bearerFormat, flows, openIdConnectUrl⟩
  | _ => .error "json: cannot unmarshal value into openapi.SecurityScheme"

def normSecurityScheme (x : SecurityScheme) : SecurityScheme :=
  { x with flows := x.flows.map normOAuthFlows }

def wfSecurityScheme (x : SecurityScheme) : Bool :=
  wfPtrB wfOAuthFlows x.flows

theorem decSecurityScheme_enc (x : SecurityScheme) (hwf : wfSecurityScheme x = true) :
    decSecurityScheme (encSecurityScheme x) = .ok (normSecurityScheme x) := by
  obtain ⟨t, d, n, i, sc, bf, fl, oi⟩ := x
  have hnd : (List.map Prod.fst [("type", strReq t), ("description", strOpt d),
      ("name", strOpt n), ("in", strOpt i), ("scheme", strOpt sc),
      ("bearerFormat", strOpt bf), ("flows", ptrOpt encOAuthFlows fl),
      ("openIdConnectUrl", strOpt oi)]).Nodup := by simp
  simp only [encSecurityScheme, mkObj, decSecurityScheme, getF_collapse hnd]
  simp only [fLook, String.reduceEq, reduceIte, decStrF_strOpt, decStrF_strReq]
  rw [decPtrF_ptrOpt (n := normOAuthFlows)
    (fun y hy => decOAuthFlows_enc y (wfPtrB_elem hwf y hy))
    (fun y _ => by simp [encOAuthFlows, mkObj])]
  rfl

/-! ## The recursive `Schema` / `AdditionalProperties` cluster
(source: `schema.go`).  `Schema` and `AdditionalProperties` are mutually
recursive, so they are inductives with a single constructor; the Go field
`Example` is spelled `example_` because `example` is reserved in Lean. -/

mutual

inductive Schema where
  | mk (title : String) (multipleOf maximum : Option GoFloat) (exclusiveMaximum : Bool)
      (minimum : Option GoFloat) (exclusiveMinimum : Bool)
      (maxLength minLength : Option Int) (pattern : String)
      (maxItems minItems : Option Int) (uniqueItems : Bool)
      (maxProperties minProperties : Option Int)
      (required : Option (List String)) (enum : Option (List Json)) (type : String)
      (allOf oneOf anyOf : Option (List (Option Schema)))
      (not items : Option Schema)
      (properties : Option (List (String × Option Schema)))
      (additionalProperties : Option AdditionalProperties)
      (description format : String) (default : Option Json) (nullable : Bool)
      (discriminator : Option Discriminator) (readOnly writeOnly : Bool)
      (xml : Option XML) (externalDocs : Option ExternalDocs)
      (example_ : Option Json) (deprecated : Bool) : Schema

inductive AdditionalProperties where
  | mk (bool : Option Bool) (schema : Option Schema) : AdditionalProperties

end

/-- The zero value of `Schema`. -/
def zeroSchema : Schema :=
  .mk "" none none false none false none none "" none none false none none
    none none "" none none none none none none none "" "" none false none
    false false none none none false

def Schema.type : Schema → String
  | .mk _ _ _ _ _ _ _ _ _ _ _ _ _ _ _ _ type _ _ _ _ _ _ _ _ _ _ _ _ _ _ _ _ _ _ => type

def AdditionalProperties.bool : AdditionalProperties → Option Bool
  | .mk b _ => b

def AdditionalProperties.schema : AdditionalProperties → Option Schema
  | .mk _ s => s

mutual

/-- Marshal a `Schema` (the field-to-key mapping of `schema.go`). -/
def encSchema : Schema → Json
  | .mk title multipleOf maximum exclusiveMaximum minimum exclusiveMinimum
      maxLength minLength pattern maxItems minItems uniqueItems
      maxProperties minProperties required enum type allOf oneOf anyOf
      not items properties additionalProperties description format default
      nullable discriminator readOnly writeOnly xml externalDocs example_
      deprecated =>
    mkObj [("title", strOpt title), ("multipleOf", floatOpt multipleOf),
      ("maximum", floatOpt maximum), ("exclusiveMaximum", boolOpt exclusiveMaximum),
      ("minimum", floatOpt minimum), ("exclusiveMinimum", boolOpt exclusiveMinimum),
      ("maxLength", intOpt maxLength), ("minLength", intOpt minLength),
      ("pattern", strOpt pattern), ("maxItems", intOpt maxItems),
      ("minItems", intOpt minItems), ("uniqueItems", boolOpt uniqueItems),
      ("maxProperties", intOpt maxProperties), ("minProperties", intOpt minProperties),
      ("required", arrOpt .str required), ("enum", arrOpt id enum),
      ("type", strOpt type), ("allOf", encSchemaLOF allOf),
      ("oneOf", encSchemaLOF oneOf), ("anyOf", encSchemaLOF anyOf),
      ("not", encSchemaOF not), ("items", encSchemaOF items),
      ("properties", encSchemaPM properties), ("additionalProperties", encAPF additionalProperties),
      ("description", strOpt description), ("format", strOpt format),
      ("default", jsonOpt default), ("nullable", boolOpt nullable),
      ("discriminator", ptrOpt encDiscriminator discriminator),
      ("readOnly", boolOpt readOnly), ("writeOnly", boolOpt writeOnly),
      ("xml", ptrOpt encXML xml), ("externalDocs", ptrOpt encExternalDocs externalDocs),
      ("example", jsonOpt example_), ("deprecated", boolOpt deprecated)]

/-- Marshal a `*Schema` occurring as a list element or map value. -/
def encSchemaPtrE : Option Schema → Json
  | none => .null
  | some s => encSchema s

/-- Marshal a `[]*Schema` field with `omitempty`. -/
def encSchemaLOF : Option (List (Option Schema)) → Option Json
  | none => none
  | some [] => none
  | some l => some (.arr (encSchemaPtrElems l))

def encSchemaPtrElems : List (Option Schema) → List Json
  | [] => []
  | o :: rest => encSchemaPtrE o :: encSchemaPtrElems rest

/-- Marshal a `*Schema` struct field with `omitempty`. -/
def encSchemaOF : Option Schema → Option Json
  | none => none
  | some s => some (encSchema s)

/-- Marshal a `map[string]*Schema` field with `omitempty`. -/
def encSchemaPM : Option (List (String × Option Schema)) → Option Json
  | none => none
  | some [] => none
  | some l => some (.obj (encSchemaProps l))

def encSchemaProps : List (String × Option Schema) → List (String × Json)
  | [] => []
  | (k, o) :: rest => (k, encSchemaPtrE o) :: encSchemaProps rest

/-- `AdditionalProperties.MarshalJSON` (source: `schema.go` lines 53-62):
a populated boolean alternative wins; otherwise a populated schema
alternative is marshaled as the schema; otherwise the literal `false`. -/
def encAP : AdditionalProperties → Json
  | .mk (some b) _ => .bool b
  | .mk none (some s) => encSchema s
  | .mk none none => .bool false

/-- Marshal a `*AdditionalProperties` field with `omitempty`. -/
def encAPF : Option AdditionalProperties → Option Json
  | none => none
  | some ap => some (encAP ap)

end

/-- Go's `json.Unmarshal` into a fresh `bool` variable: a boolean literal
sets the value; `null` is ignored (leaving the zero value `false`) without
error; anything else is a type error. -/
def goUnmarshalBool : Json → Except String Bool
  | .bool b => .ok b
  | .null => .ok false
  | _ => .error "json: cannot unmarshal value into Go value of type bool"

mutual

/-- Unmarshal a `Schema` (Go decodes each present key into its field;
absent keys keep the zero value; unknown keys are ignored). -/
def decSchema : Json → Except String Schema
  | .null => .ok zeroSchema
  | .obj kvs => do
    let title ← decStrF (getF kvs "title")
    let multipleOf ← decFloatF (getF kvs "multipleOf")
    let maximum ← decFloatF (getF kvs "maximum")
    let exclusiveMaximum ← decBoolF (getF kvs "exclusiveMaximum")
    let minimum ← decFloatF (getF kvs "minimum")
    let exclusiveMinimum ← decBoolF (getF kvs "exclusiveMinimum")
    let maxLength ← decIntF (getF kvs "maxLength")
    let minLength ← decIntF (getF kvs "minLength")
    let pattern ← decStrF (getF kvs "pattern")
    let maxItems ← decIntF (getF kvs "maxItems")
    let minItems ← decIntF (getF kvs "minItems")
    let uniqueItems ← decBoolF (getF kvs "uniqueItems")
    let maxProperties ← decIntF (getF kvs "maxProperties")
    let minProperties ← decIntF (getF kvs "minProperties")
    let required ← decArrF decStrE (getF kvs "required")
    let enum ← decArrF Except.ok (getF kvs "enum")
    let type ← decStrF (getF kvs "type")
    let allOf ← decSchemaArrField kvs "allOf"
    let oneOf ← decSchemaArrField kvs "oneOf"
    let anyOf ← decSchemaArrField kvs "anyOf"
    let not ← decSchemaPtrField kvs "not"
    let items ← decSchemaPtrField kvs "items"
    let properties ← decSchemaMapField kvs "properties"
    let additionalProperties ← decAPField kvs "additionalProperties"
    let description ← decStrF (getF kvs "description")
    let format ← decStrF (getF kvs "format")
    let default ← decJsonF (getF kvs "default")
    let nullable ← decBoolF (getF kvs "nullable")
    let discriminator ← decPtrF decDiscriminator (getF kvs "discriminator")
    let readOnly ← decBoolF (getF kvs "readOnly")
    let writeOnly ← decBoolF (getF kvs "writeOnly")
    let xml ← decPtrF decXML (getF kvs "xml")
    let externalDocs ← decPtrF decExternalDocs (getF kvs "externalDocs")
    let example_ ← decJsonF (getF kvs "example")
    let deprecated ← decBoolF (getF kvs "deprecated")
    .ok (.mk title multipleOf maximum exclusiveMaximum minimum exclusiveMinimum
      maxLength minLength pattern maxItems minItems uniqueItems
      maxProperties minProperties required enum type allOf oneOf anyOf
      not items properties additionalProperties description format default
      nullable discriminator readOnly writeOnly xml externalDocs example_
      deprecated)
  | _ => .error "json: cannot unmarshal value into openapi.Schema"
termination_by j => (sizeOf j, 0)

/-- Unmarshal a `*Schema` value (`null` gives the nil pointer). -/
def decSchemaPtrE : Json → Except String (Option Schema)
  | .null => .ok none
  | j => Except.map some (decSchema j)
termination_by j => (sizeOf j, 1)

/-- Unmarshal a `[]*Schema` value. -/
def decSchemaArrF : Json → Except String (Option (List (Option Schema)))
  | .null => .ok none
  | .arr es => Except.map some (decSchemaPtrElems es)
  | _ => .error "json: cannot unmarshal value into Go value of type []*openapi.Schema"
termination_by j => (sizeOf j, 0)

def decSchemaPtrElems : List Json → Except String (List (Option Schema))
  | [] => .ok []
  | e :: rest => do
    let x ← decSchemaPtrE e
    let xs ← decSchemaPtrElems rest
    .ok (x :: xs)
termination_by es => (sizeOf es, 0)

/-- Unmarshal a `map[string]*Schema` value. -/
def decSchemaMapF : Json → Except String (Option (List (String × Option Schema)))
  | .null => .ok none
  | .obj kvs => do
    let l ← decSchemaProps kvs
    .ok (some (l.foldl (fun m p => mapInsert p.1 p.2 m) []))
  | _ => .error "json: cannot unmarshal value into Go value of type map[string]*openapi.Schema"
termination_by j => (sizeOf j, 0)

def decSchemaProps : List (String × Json) → Except String (List (String × Option Schema))
  | [] => .ok []
  | (k, v) :: rest => do
    let x ← decSchemaPtrE v
    let xs ← decSchemaProps rest
    .ok ((k, x) :: xs)
termination_by kvs => (sizeOf kvs, 0)

/-- Read a `[]*Schema` field out of an object. -/
def decSchemaArrField (kvs : List (String × Json)) (k : String) :
    Except String (Option (List (Option Schema))) :=
  match getFD kvs k with
  | none => .ok none
  | some ⟨v, _hv⟩ => decSchemaArrF v
termination_by (sizeOf kvs, 0)

/-- Read a `*Schema` field out of an object. -/
def decSchemaPtrField (kvs : List (String × Json)) (k : String) :
    Except String (Option Schema) :=
  match getFD kvs k with
  | none => .ok none
  | some ⟨v, _hv⟩ => decSchemaPtrE v
termination_by (sizeOf kvs, 0)

/-- Read a `map[string]*Schema` field out of an object. -/
def decSchemaMapField (kvs : List (String × Json)) (k : String) :
    Except String (Option (List (String × Option Schema))) :=
  match getFD kvs k with
  | none => .ok none
  | some ⟨v, _hv⟩ => decSchemaMapF v
termination_by (sizeOf kvs, 0)

/-- `AdditionalProperties.UnmarshalJSON` (source: `schema.go` lines 65-83):
try a boolean decode first; on success populate `Bool` and clear `Schema`.
Otherwise try a schema decode; on success populate `Schema` and clear
`Bool`.  If both fail, return `json.Unmarshal(data, &boolVal)` — the re-run
of the boolean decode, whose (unreachable) success would leave the receiver
untouched. -/
def decAP (j : Json) : Except String AdditionalProperties :=
  match goUnmarshalBool j with
  | .ok b => .ok (.mk (some b) none)
  | .error _ =>
    match decSchema j with
    | .ok s => .ok (.mk none (some s))
    | .error _ =>
      match goUnmarshalBool j with
      | .ok _ => .ok (.mk none none)
      | .error e => .error e
termination_by (sizeOf j, 1)

/-- Unmarshal a `*AdditionalProperties` value (`null` gives the nil pointer
without invoking `UnmarshalJSON`). -/
def decAPPtr : Json → Except String (Option AdditionalProperties)
  | .null => .ok none
  | j => Except.map some (decAP j)
termination_by j => (sizeOf j, 2)

/-- Read a `*AdditionalProperties` field out of an object. -/
def decAPField (kvs : List (String × Json)) (k : String) :
    Except String (Option AdditionalProperties) :=
  match getFD kvs k with
  | none => .ok none
  | some ⟨v, _hv⟩ => decAPPtr v
termination_by (sizeOf kvs, 0)

end

mutual

/-- Normal form of a `Schema` under a decode-after-encode cycle: empty
`omitempty` collections become absent, interface-held `null`s become unset,
and a default `AdditionalProperties` becomes an explicit `false`. -/
def normSchema : Schema → Schema
  | .mk title multipleOf maximum exclusiveMaximum minimum exclusiveMinimum
      maxLength minLength pattern maxItems minItems uniqueItems
      maxProperties minProperties required enum type allOf oneOf anyOf
      not items properties additionalProperties description format default
      nullable discriminator readOnly writeOnly xml externalDocs example_
      deprecated =>
    .mk title multipleOf maximum exclusiveMaximum minimum exclusiveMinimum
      maxLength minLength pattern maxItems minItems uniqueItems
      maxProperties minProperties (normArr id required) (normArr id enum) type
      (normSchemaLO allOf) (normSchemaLO oneOf) (normSchemaLO anyOf)
      (normSchemaO not) (normSchemaO items) (normSchemaPMF properties)
      (normAPF additionalProperties) description format (normJsonOpt default)
      nullable (discriminator.map normDiscriminator) readOnly writeOnly xml
      externalDocs (normJsonOpt example_) deprecated

def normSchemaO : Option Schema → Option Schema
  | none => none
  | some s => some (normSchema s)

def normSchemaLO : Option (List (Option Schema)) → Option (List (Option Schema))
  | none => none
  | some [] => none
  | some l => some (normSchemaElems l)

def normSchemaElems : List (Option Schema) → List (Option Schema)
  | [] => []
  | o :: rest => normSchemaO o :: normSchemaElems rest

def normSchemaPMF : Option (List (String × Option Schema)) →
    Option (List (String × Option Schema))
  | none => none
  | some [] => none
  | some l => some (normSchemaProps l)

def normSchemaProps : List (String × Option Schema) → List (String × Option Schema)
  | [] => []
  | (k, o) :: rest => (k, normSchemaO o) :: normSchemaProps rest

def normAP : AdditionalProperties → AdditionalProperties
  | .mk (some b) _ => .mk (some b) none
  | .mk none (some s) => .mk none (some (normSchema s))
  | .mk none none => .mk (some false) none

def normAPF : Option AdditionalProperties → Option AdditionalProperties
  | none => none
  | some ap => some (normAP ap)

end

mutual

/-- Canonical-key well-formedness of a `Schema` (every Go map inside has a
sorted, duplicate-free key list — as actual Go maps observably do). -/
def wfSchema : Schema → Bool
  | .mk _ _ _ _ _ _ _ _ _ _ _ _ _ _ _ _ _ allOf oneOf anyOf
      not items properties additionalProperties _ _ _ _ discriminator _ _ _ _ _ _ =>
    wfSchemaLO allOf && wfSchemaLO oneOf && wfSchemaLO anyOf &&
      wfSchemaO not && wfSchemaO items && wfSchemaPMF properties &&
      wfAPF additionalProperties && wfPtrB wfDiscriminator discriminator

def wfSchemaO : Option Schema → Bool
  | none => true
  | some s => wfSchema s

def wfSchemaLO : Option (List (Option Schema)) → Bool
  | none => true
  | some l => wfSchemaElems l

def wfSchemaElems : List (Option Schema) → Bool
  | [] => true
  | o :: rest => wfSchemaO o && wfSchemaElems rest

def wfSchemaPMF : Option (List (String × Option Schema)) → Bool
  | none => true
  | some l => decide (sKeys l) && wfSchemaProps l

def wfSchemaProps : List (String × Option Schema) → Bool
  | [] => true
  | (_, o) :: rest => wfSchemaO o && wfSchemaProps rest

def wfAP : AdditionalProperties → Bool
  | .mk _ (some s) => wfSchema s
  | .mk _ none => true

def wfAPF : Option AdditionalProperties → Bool
  | none => true
  | some ap => wfAP ap

end

theorem matchOpt_getFD {β : Type} (kvs : List (String × Json)) (k : String)
    (f : Json → β) (b : β) :
    (match getFD kvs k with
      | none => b
      | some ⟨v, _⟩ => f v) =
      (match getF kvs k with
        | none => b
        | some v => f v) := by
  cases hD : getFD kvs k with
  | none =>
    have hg : getF kvs k = none := by
      have hval := getFD_val kvs k
      rw [hD] at hval
      exact hval.symm
    rw [hg]
  | some w =>
    have hg : getF kvs k = some w.1 := by
      have hval := getFD_val kvs k
      rw [hD] at hval
      exact hval.symm
    rw [hg]

theorem decSchemaPtrField_eq (kvs : List (String × Json)) (k : String) :
    decSchemaPtrField kvs k =
      (match getF kvs k with
        | none => Except.ok none
        | some v => decSchemaPtrE v) := by
  rw [decSchemaPtrField]
  exact matchOpt_getFD kvs k decSchemaPtrE (Except.ok none)

theorem decSchemaArrField_eq (kvs : List (String × Json)) (k : String) :
    decSchemaArrField kvs k =
      (match getF kvs k with
        | none => Except.ok none
        | some v => decSchemaArrF v) := by
  rw [decSchemaArrField]
  exact matchOpt_getFD kvs k decSchemaArrF (Except.ok none)

theorem decSchemaMapField_eq (kvs : List (String × Json)) (k : String) :
    decSchemaMapField kvs k =
      (match getF kvs k with
        | none => Except.ok none
        | some v => decSchemaMapF v) := by
  rw [decSchemaMapField]
  exact matchOpt_getFD kvs k decSchemaMapF (Except.ok none)

theorem decAPField_eq (kvs : List (String × Json)) (k : String) :
    decAPField kvs k =
      (match getF kvs k with
        | none => Except.ok none
        | some v => decAPPtr v) := by
  rw [decAPField]
  exact matchOpt_getFD kvs k decAPPtr (Except.ok none)

theorem decSchemaPtrE_obj (kvs : List (String × Json)) :
    decSchemaPtrE (.obj kvs) = Except.map some (decSchema (.obj kvs)) := by
  simp [decSchemaPtrE]

theorem decAPPtr_obj (kvs : List (String × Json)) :
    decAPPtr (.obj kvs) = Except.map some (decAP (.obj kvs)) := by
  simp [decAPPtr]

theorem decAPPtr_bool (b : Bool) :
    decAPPtr (.bool b) = Except.map some (decAP (.bool b)) := by
  simp [decAPPtr]

theorem normSchemaProps_eq_map (l : List (String × Option Schema)) :
    normSchemaProps l = l.map (fun p => (p.1, normSchemaO p.2)) := by
  induction l with
  | nil => rfl
  | cons p rest ih =>
    obtain ⟨k, o⟩ := p
    simp [normSchemaProps, ih]

theorem decSchemaPtrE_encS_eq (s : Schema) :
    decSchemaPtrE (encSchema s) = Except.map some (decSchema (encSchema s)) := by
  cases s
  rw [encSchema]
  exact decSchemaPtrE_obj _

theorem decAPPtr_encAP_eq (ap : AdditionalProperties) :
    decAPPtr (encAP ap) = Except.map some (decAP (encAP ap)) := by
  obtain ⟨b, sc⟩ := ap
  cases b with
  | some b' =>
    rw [encAP]
    exact decAPPtr_bool _
  | none =>
    cases sc with
    | some s =>
      rw [encAP]
      cases s
      rw [encSchema]
      exact decAPPtr_obj _
    | none =>
      rw [encAP]
      exact decAPPtr_bool _

mutual

theorem decSchema_enc (s : Schema) (hwf : wfSchema s = true) :
    decSchema (encSchema s) = Except.ok (normSchema s) := by
  cases s with
  | mk t mo mx em mi emi ml mnl pat mxi mni ui mxp mnp req en ty ao oo aoo
      nt it pr apx de fo df nu di ro wo xm ed exm dep =>
    simp only [wfSchema, Bool.and_eq_true] at hwf
    obtain ⟨⟨⟨⟨⟨⟨⟨hAO, hOO⟩, hAOO⟩, hNT⟩, hIT⟩, hPR⟩, hAPx⟩, hDI⟩ := hwf
    have hnd : (List.map Prod.fst [("title", strOpt t), ("multipleOf", floatOpt mo),
        ("maximum", floatOpt mx), ("exclusiveMaximum", boolOpt em),
        ("minimum", floatOpt mi), ("exclusiveMinimum", boolOpt emi),
        ("maxLength", intOpt ml), ("minLength", intOpt mnl),
        ("pattern", strOpt pat), ("maxItems", intOpt mxi),
        ("minItems", intOpt mni), ("uniqueItems", boolOpt ui),
        ("maxProperties", intOpt mxp), ("minProperties", intOpt mnp),
        ("required", arrOpt .str req), ("enum", arrOpt id en),
        ("type", strOpt ty), ("allOf", encSchemaLOF ao),
        ("oneOf", encSchemaLOF oo), ("anyOf", encSchemaLOF aoo),
        ("not", encSchemaOF nt), ("items", encSchemaOF it),
        ("properties", encSchemaPM pr), ("additionalProperties", encAPF apx),
        ("description", strOpt de), ("format", strOpt fo),
        ("default", jsonOpt df), ("nullable", boolOpt nu),
        ("discriminator", ptrOpt encDiscriminator di),
        ("readOnly", boolOpt ro), ("writeOnly", boolOpt wo),
        ("xml", ptrOpt encXML xm), ("externalDocs", ptrOpt encExternalDocs ed),
        ("example", jsonOpt exm), ("deprecated", boolOpt dep)]).Nodup := by simp
    have eAO : (match encSchemaLOF ao with
        | none => Except.ok none
        | some v => decSchemaArrF v) = Except.ok (normSchemaLO ao) := by
      cases ao with
      | none => simp [encSchemaLOF, normSchemaLO]
      | some l =>
        cases l with
        | nil => simp [encSchemaLOF, normSchemaLO]
        | cons x xs =>
          simp only [wfSchemaLO] at hAO
          simp only [encSchemaLOF, decSchemaArrF]
          rw [decSchemaElems_enc (x :: xs) hAO]
          simp [normSchemaLO, Except.map]
    have eOO : (match encSchemaLOF oo with
        | none => Except.ok none
        | some v => decSchemaArrF v) = Except.ok (normSchemaLO oo) := by
      cases oo with
      | none => simp [encSchemaLOF, normSchemaLO]
      | some l =>
        cases l with
        | nil => simp [encSchemaLOF, normSchemaLO]
        | cons x xs =>
          simp only [wfSchemaLO] at hOO
          simp only [encSchemaLOF, decSchemaArrF]
          rw [decSchemaElems_enc (x :: xs) hOO]
          simp [normSchemaLO, Except.map]
    have eAOO : (match encSchemaLOF aoo with
        | none => Except.ok none
        | some v => decSchemaArrF v) = Except.ok (normSchemaLO aoo) := by
      cases aoo with
      | none => simp [encSchemaLOF, normSchemaLO]
      | some l =>
        cases l with
        | nil => simp [encSchemaLOF, normSchemaLO]
        | cons x xs =>
          simp only [wfSchemaLO] at hAOO
          simp only [encSchemaLOF, decSchemaArrF]
          rw [decSchemaElems_enc (x :: xs) hAOO]
          simp [normSchemaLO, Except.map]
    have eNT : (match encSchemaOF nt with
        | none => Except.ok none
        | some v => decSchemaPtrE v) = Except.ok (normSchemaO nt) := by
      cases nt with
      | none => simp [encSchemaOF, normSchemaO]
      | some s' =>
        simp only [wfSchemaO] at hNT
        simp only [encSchemaOF]
        rw [decSchemaPtrE_encS_eq, decSchema_enc s' hNT]
        simp [normSchemaO, Except.map]
    have eIT : (match encSchemaOF it with
        | none => Except.ok none
        | some v => decSchemaPtrE v) = Except.ok (normSchemaO it) := by
      cases it with
      | none => simp [encSchemaOF, normSchemaO]
      | some s' =>
        simp only [wfSchemaO] at hIT
        simp only [encSchemaOF]
        rw [decSchemaPtrE_encS_eq, decSchema_enc s' hIT]
        simp [normSchemaO, Except.map]
    have ePR : (match encSchemaPM pr with
        | none => Except.ok none
        | some v => decSchemaMapF v) = Except.ok (normSchemaPMF pr) := by
      cases pr with
      | none => simp [encSchemaPM, normSchemaPMF]
      | some l =>
        cases l with
        | nil => simp [encSchemaPM, normSchemaPMF]
        | cons x xs =>
          simp only [wfSchemaPMF, Bool.and_eq_true, decide_eq_true_eq] at hPR
          simp only [encSchemaPM, decSchemaMapF]
          rw [decSchemaProps_enc (x :: xs) hPR.2]
          have hfold : List.foldl (fun m p => mapInsert p.1 p.2 m) []
              (normSchemaProps (x :: xs)) = normSchemaProps (x :: xs) := by
            rw [normSchemaProps_eq_map]
            exact foldl_mapInsert_sorted (sKeys_map_values _ hPR.1)
          show Except.ok (some (List.foldl (fun m p => mapInsert p.1 p.2 m) []
              (normSchemaProps (x :: xs)))) = _
          rw [hfold]
          simp [normSchemaPMF]
    have eAP : (match encAPF apx with
        | none => Except.ok none
        | some v => decAPPtr v) = Except.ok (normAPF apx) := by
      cases apx with
      | none => simp [encAPF, normAPF]
      | some apv =>
        simp only [wfAPF] at hAPx
        simp only [encAPF]
        rw [decAPPtr_encAP_eq, decAP_encAP apv hAPx]
        simp [normAPF, Except.map]
    rw [encSchema]
    simp only [mkObj, decSchema, decSchemaPtrField_eq, decSchemaArrField_eq,
      decSchemaMapField_eq, decAPField_eq, getF_collapse hnd]
    simp only [fLook, String.reduceEq, reduceIte]
    rw [eAO, eOO, eAOO, eNT, eIT, ePR, eAP,
      decArrF_arrOpt (d := decStrE) (e := Json.str) (n := id)
        (fun _ _ x _ => decStrE_str x),
      decArrF_arrOpt (d := Except.ok) (e := id) (n := id)
        (fun _ _ _ _ => rfl),
      decPtrF_ptrOpt (d := decDiscriminator) (e := encDiscriminator)
        (n := normDiscriminator)
        (fun y hy => decDiscriminator_enc y (wfPtrB_elem hDI y hy))
        (fun y _ => by simp [encDiscriminator, mkObj]),
      decPtrF_ptrOpt (d := decXML) (e := encXML) (n := id)
        (fun y _ => decXML_enc y) (fun y _ => by simp [encXML, mkObj]),
      decPtrF_ptrOpt (d := decExternalDocs) (e := encExternalDocs) (n := id)
        (fun y _ => decExternalDocs_enc y) (fun y _ => by simp [encExternalDocs, mkObj])]
    simp only [decStrF_strOpt, decFloatF_floatOpt, decBoolF_boolOpt, decIntF_intOpt,
      decJsonF_jsonOpt]
    simp only [normSchema, Option.map_id]
    rfl
termination_by sizeOf s
decreasing_by
  all_goals subst_vars
  all_goals simp_wf
  all_goals omega

theorem decSchemaElems_enc : ∀ (l : List (Option Schema)), wfSchemaElems l = true →
    decSchemaPtrElems (encSchemaPtrElems l) = Except.ok (normSchemaElems l)
  | [], _ => by simp [encSchemaPtrElems, decSchemaPtrElems, normSchemaElems]
  | o :: rest, hwf => by
    simp only [wfSchemaElems, Bool.and_eq_true] at hwf
    simp only [encSchemaPtrElems, decSchemaPtrElems]
    have eo : decSchemaPtrE (encSchemaPtrE o) = Except.ok (normSchemaO o) := by
      cases o with
      | none => simp [encSchemaPtrE, decSchemaPtrE, normSchemaO]
      | some s' =>
        simp only [encSchemaPtrE]
        rw [decSchemaPtrE_encS_eq,
          decSchema_enc s' (by simpa [wfSchemaO] using hwf.1)]
        simp [normSchemaO, Except.map]
    rw [eo, decSchemaElems_enc rest hwf.2]
    rfl
termination_by l _ => sizeOf l
decreasing_by
  all_goals subst_vars
  all_goals simp_wf
  all_goals omega

theorem decSchemaProps_enc : ∀ (l : List (String × Option Schema)),
    wfSchemaProps l = true →
    decSchemaProps (encSchemaProps l) = Except.ok (normSchemaProps l)
  | [], _ => by simp [encSchemaProps, decSchemaProps, normSchemaProps]
  | (k, o) :: rest, hwf => by
    simp only [wfSchemaProps, Bool.and_eq_true] at hwf
    simp only [encSchemaProps, decSchemaProps]
    have eo : decSchemaPtrE (encSchemaPtrE o) = Except.ok (normSchemaO o) := by
      cases o with
      | none => simp [encSchemaPtrE, decSchemaPtrE, normSchemaO]
      | some s' =>
        simp only [encSchemaPtrE]
        rw [decSchemaPtrE_encS_eq,
          decSchema_enc s' (by simpa [wfSchemaO] using hwf.1)]
        simp [normSchemaO, Except.map]
    rw [eo, decSchemaProps_enc rest hwf.2]
    rfl
termination_by l _ => sizeOf l
decreasing_by
  all_goals subst_vars
  all_goals simp_wf
  all_goals omega

theorem decAP_encAP : ∀ (ap : AdditionalProperties), wfAP ap = true →
    decAP (encAP ap) = Except.ok (normAP ap)
  | .mk (some b') sc, _hwf => by
    simp only [encAP]
    simp [decAP, goUnmarshalBool, normAP]
  | .mk none (some s'), hwf => by
    simp only [wfAP] at hwf
    have hb : goUnmarshalBool (encAP (.mk none (some s'))) =
        .error "json: cannot unmarshal value into Go value of type bool" := by
      simp only [encAP]
      cases s'
      rw [encSchema]
      rfl
    simp only [decAP, hb]
    simp only [encAP] at *
    rw [decSchema_enc s' hwf]
    simp [normAP]
  | .mk none none, _hwf => by
    simp only [encAP]
    simp [decAP, goUnmarshalBool, normAP]
termination_by ap _ => sizeOf ap
decreasing_by
  all_goals simp_wf
  all_goals omega

end

theorem encSchema_ne_null (s : Schema) : encSchema s ≠ Json.null := by
  cases s
  rw [encSchema]
  simp [mkObj]

/-- `*bool` field with `omitempty` (source: `doc.go`, `Parameter.Explode`). -/
def boolPtrOpt (o : Option Bool) : Option Json :=
  o.map .bool

def decBoolPtrF : Option Json → Except String (Option Bool)
  | none => .ok none
  | some .null => .ok none
  | some (.bool b) => .ok (some b)
  | some _ => .error "json: cannot unmarshal value into Go value of type bool"

theorem decBoolPtrF_boolPtrOpt (o : Option Bool) : decBoolPtrF (boolPtrOpt o) = .ok o := by
  cases o <;> rfl

/-- `MediaType` (source: `media_type.go`). -/
structure MediaType where
  schema : Option Schema
  example_ : Option Json
  examples : Option (List (String × Example))
  encoding : Option (List (String × Encoding))

def encMediaType (x : MediaType) : Json :=
  mkObj [("schema", ptrOpt encSchema x.schema), ("example", jsonOpt x.example_),
    ("examples", mapOptE encExample x.examples), ("encoding", mapOptE encEncoding x.encoding)]

def decMediaType : Json → Except String MediaType
  | .null => .ok ⟨none, none, none, none⟩
  | .obj kvs => do
    let schema ← decPtrF decSchema (getF kvs "schema")
    let example_ ← decJsonF (getF kvs "example")
    let examples ← decMapF decExample (getF kvs "examples")
    let encoding ← decMapF decEncoding (getF kvs "encoding")
    .ok ⟨schema, example_, examples, encoding⟩
  | _ => .error "json: cannot unmarshal value into openapi.MediaType"

def normMediaType (x : MediaType) : MediaType :=
  ⟨x.schema.map normSchema, normJsonOpt x.example_,
    normMapO normExample x.examples, normMapO id x.encoding⟩

def wfMediaType (x : MediaType) : Bool :=
  wfPtrB wfSchema x.schema && wfMapB (fun _ => true) x.examples &&
    wfMapB (fun _ => true) x.encoding

theorem decMediaType_enc (x : MediaType) (hwf : wfMediaType x = true) :
    decMediaType (encMediaType x) = .ok (normMediaType x) := by
  obtain ⟨sc, ex, exs, en⟩ := x
  simp only [wfMediaType, Bool.and_eq_true] at hwf
  have hnd : (List.map Prod.fst [("schema", ptrOpt encSchema sc), ("example", jsonOpt ex),
      ("examples", mapOptE encExample exs), ("encoding", mapOptE encEncoding en)]).Nodup := by
    simp
  simp only [encMediaType, mkObj, decMediaType, getF_collapse hnd]
  simp only [fLook, String.reduceEq, reduceIte, decJsonF_jsonOpt]
  rw [decPtrF_ptrOpt (n := normSchema)
      (fun y hy => decSchema_enc y (wfPtrB_elem hwf.1.1 y hy))
      (fun y _ => encSchema_ne_null y),
    decMapF_mapOptE (n := normExample) (wfMapB_sKeys hwf.1.2)
      (fun l _ p _ => decExample_enc p.2),
    decMapF_mapOptE (n := id) (wfMapB_sKeys hwf.2)
      (fun l _ p _ => decEncoding_enc p.2)]
  rfl

/-- `Header` (source: `header.go`). -/
structure Header where
  description : String
  required : Bool
  deprecated : Bool
  allowEmptyValue : Bool
  style : String
  explode : Bool
  allowReserved : Bool
  schema : Option Schema
  example_ : Option Json
  examples : Option (List (String × Example))
  content : Option (List (String × MediaType))

def encHeader (x : Header) : Json :=
  mkObj [("description", strOpt x.description), ("required", boolOpt x.required),
    ("deprecated", boolOpt x.deprecated), ("allowEmptyValue", boolOpt x.allowEmptyValue),
    ("style", strOpt x.style), ("explode", boolOpt x.explode),
    ("allowReserved", boolOpt x.allowReserved), ("schema", ptrOpt encSchema x.schema),
    ("example", jsonOpt x.example_), ("examples", mapOptE encExample x.examples),
    ("content", mapOptE encMediaType x.content)]

def decHeader : Json → Except String Header
  | .null => .ok ⟨"", false, false, false, "", false, false, none, none, none, none⟩
  | .obj kvs => do
    let description ← decStrF (getF kvs "description")
    let required ← decBoolF (getF kvs "required")
    let deprecated ← decBoolF (getF kvs "deprecated")
    let allowEmptyValue ← decBoolF (getF kvs "allowEmptyValue")
    let style ← decStrF (getF kvs "style")
    let explode ← decBoolF (getF kvs "explode")
    let allowReserved ← decBoolF (getF kvs "allowReserved")
    let schema ← decPtrF decSchema (getF kvs "schema")
    let example_ ← decJsonF (getF kvs "example")
    let examples ← decMapF decExample (getF kvs "examples")
    let content ← decMapF decMediaType (getF kvs "content")
    .ok ⟨description, required, deprecated, allowEmptyValue, style, explode,
      allowReserved, schema, example_, examples, content⟩
  | _ => .error "json: cannot unmarshal value into openapi.Header"

def normHeader (x : Header) : Header :=
  { x with
    schema := x.schema.map normSchema, example_ := normJsonOpt x.example_,
    examples := normMapO normExample x.examples,
    content := normMapO normMediaType x.content }

def wfHeader (x : Header) : Bool :=
  wfPtrB wfSchema x.schema && wfMapB (fun _ => true) x.examples &&
    wfMapB wfMediaType x.content

theorem decHeader_enc (x : Header) (hwf : wfHeader x = true) :
    decHeader (encHeader x) = .ok (normHeader x) := by
  obtain ⟨d, r, dp, aev, st, ex, ar, sc, exv, exs, ct⟩ := x
  simp only [wfHeader, Bool.and_eq_true] at hwf
  have hnd : (List.map Prod.fst [("description", strOpt d), ("required", boolOpt r),
      ("deprecated", boolOpt dp), ("allowEmptyValue", boolOpt aev),
      ("style", strOpt st), ("explode", boolOpt ex),
      ("allowReserved", boolOpt ar), ("schema", ptrOpt encSchema sc),
      ("example", jsonOpt exv), ("examples", mapOptE encExample exs),
      ("content", mapOptE encMediaType ct)]).Nodup := by simp
  simp only [encHeader, mkObj, decHeader, getF_collapse hnd]
  simp only [fLook, String.reduceEq, reduceIte, decStrF_strOpt, decBoolF_boolOpt,
    decJsonF_jsonOpt]
  rw [decPtrF_ptrOpt (n := normSchema)
      (fun y hy => decSchema_enc y (wfPtrB_elem hwf.1.1 y hy))
      (fun y _ => encSchema_ne_null y),
    decMapF_mapOptE (n := normExample) (wfMapB_sKeys hwf.1.2)
      (fun l _ p _ => decExample_enc p.2),
    decMapF_mapOptE (n := normMediaType) (wfMapB_sKeys hwf.2)
      (fun l hl p hp => decMediaType_enc p.2 (wfMapB_elem hwf.2 l hl p hp))]
  rfl

/-- `Parameter` (source: `doc.go`).  The Go field `In` is spelled `in_`. -/
structure Parameter where
  name : String
  in_ : String
  description : String
  required : Bool
  deprecated : Bool
  allowEmptyValue : Bool
  style : String
  explode : Option Bool
  allowReserved : Bool
  schema : Option Schema
  example_ : Option Json
  examples : Option (List (String × Example))
  content : Option (List (String × MediaType))

def encParameter (x : Parameter) : Json :=
  mkObj [("name", strReq x.name), ("in", strReq x.in_),
    ("description", strOpt x.description), ("required", boolOpt x.required),
    ("deprecated", boolOpt x.deprecated), ("allowEmptyValue", boolOpt x.allowEmptyValue),
    ("style", strOpt x.style), ("explode", boolPtrOpt x.explode),
    ("allowReserved", boolOpt x.allowReserved), ("schema", ptrOpt encSchema x.schema),
    ("example", jsonOpt x.example_), ("examples", mapOptE encExample x.examples),
    ("content", mapOptE encMediaType x.content)]

def decParameter : Json → Except String Parameter
  | .null => .ok ⟨"", "", "", false, false, false, "", none, false, none, none, none, none⟩
  | .obj kvs => do
    let name ← decStrF (getF kvs "name")
    let in_ ← decStrF (getF kvs "in")
    let description ← decStrF (getF kvs "description")
    let required ← decBoolF (getF kvs "required")
    let deprecated ← decBoolF (getF kvs "deprecated")
    let allowEmptyValue ← decBoolF (getF kvs "allowEmptyValue")
    let style ← decStrF (getF kvs "style")
    let explode ← decBoolPtrF (getF kvs "explode")
    let allowReserved ← decBoolF (getF kvs "allowReserved")
    let schema ← decPtrF decSchema (getF kvs "schema")
    let example_ ← decJsonF (getF kvs "example")
    let examples ← decMapF decExample (getF kvs "examples")
    let content ← decMapF decMediaType (getF kvs "content")
    .ok ⟨name, in_, description, required, deprecated, allowEmptyValue, style,
      explode, allowReserved, schema, example_, examples, content⟩
  | _ => .error "json: cannot unmarshal value into openapi.Parameter"

def normParameter (x : Parameter) : Parameter :=
  { x with
    schema := x.schema.map normSchema, example_ := normJsonOpt x.example_,
    examples := normMapO normExample x.examples,
    content := normMapO normMediaType x.content }

def wfParameter (x : Parameter) : Bool :=
  wfPtrB wfSchema x.schema && wfMapB (fun _ => true) x.examples &&
    wfMapB wfMediaType x.content

theorem decParameter_enc (x : Parameter) (hwf : wfParameter x = true) :
    decParameter (encParameter x) = .ok (normParameter x) := by
  obtain ⟨n, i, d, r, dp, aev, st, ex, ar, sc, exv, exs, ct⟩ := x
  simp only [wfParameter, Bool.and_eq_true] at hwf
  have hnd : (List.map Prod.fst [("name", strReq n), ("in", strReq i),
      ("description", strOpt d), ("required", boolOpt r),
      ("deprecated", boolOpt dp), ("allowEmptyValue", boolOpt aev),
      ("style", strOpt st), ("explode", boolPtrOpt ex),
      ("allowReserved", boolOpt ar), ("schema", ptrOpt encSchema sc),
      ("example", jsonOpt exv), ("examples", mapOptE encExample exs),
      ("content", mapOptE encMediaType ct)]).Nodup := by simp
  simp only [encParameter, mkObj, decParameter, getF_collapse hnd]
  simp only [fLook, String.reduceEq, reduceIte, decStrF_strOpt, decStrF_strReq,
    decBoolF_boolOpt, decBoolPtrF_boolPtrOpt, decJsonF_jsonOpt]
  rw [decPtrF_ptrOpt (n := normSchema)
      (fun y hy => decSchema_enc y (wfPtrB_elem hwf.1.1 y hy))
      (fun y _ => encSchema_ne_null y),
    decMapF_mapOptE (n := normExample) (wfMapB_sKeys hwf.1.2)
      (fun l _ p _ => decExample_enc p.2),
    decMapF_mapOptE (n := normMediaType) (wfMapB_sKeys hwf.2)
      (fun l hl p hp => decMediaType_enc p.2 (wfMapB_elem hwf.2 l hl p hp))]
  rfl

/-- `Link` (source: `link.go`). -/
structure Link where
  operationRef : String
  operationId : String
  parameters : Option (List (String × Json))
  requestBody : Option Json
  description : String
  server : Option Server

def encLink (x : Link) : Json :=
  mkObj [("operationRef", strOpt x.operationRef), ("operationId", strOpt x.operationId),
    ("parameters", mapOptE id x.parameters), ("requestBody", jsonOpt x.requestBody),
    ("description", strOpt x.description), ("server", ptrOpt encServer x.server)]

def decLink : Json → Except String Link
  | .null => .ok ⟨"", "", none, none, "", none⟩
  | .obj kvs => do
    let operationRef ← decStrF (getF kvs "operationRef")
    let operationId ← decStrF (getF kvs "operationId")
    let parameters ← decMapF Except.ok (getF kvs "parameters")
    let requestBody ← decJsonF (getF kvs "requestBody")
    let description ← decStrF (getF kvs "description")
    let server ← decPtrF decServer (getF kvs "server")
    .ok ⟨operationRef, operationId, parameters, requestBody, description, server⟩
  | _ => .error "json: cannot unmarshal value into openapi.Link"

def normLink (x : Link) : Link :=
  { x with
    parameters := normMapO id x.parameters,
    requestBody := normJsonOpt x.requestBody,
    server := x.server.map normServer }

def wfLink (x : Link) : Bool :=
  wfMapB (fun _ => true) x.parameters && wfPtrB wfServer x.server

theorem decLink_enc (x : Link) (hwf : wfLink x = true) :
    decLink (encLink x) = .ok (normLink x) := by
  obtain ⟨orf, oid, pa, rb, d, sv⟩ := x
  simp only [wfLink, Bool.and_eq_true] at hwf
  have hnd : (List.map Prod.fst [("operationRef", strOpt orf), ("operationId", strOpt oid),
      ("parameters", mapOptE id pa), ("requestBody", jsonOpt rb),
      ("description", strOpt d), ("server", ptrOpt encServer sv)]).Nodup := by simp
  simp only [encLink, mkObj, decLink, getF_collapse hnd]
  simp only [fLook, String.reduceEq, reduceIte, decStrF_strOpt, decJsonF_jsonOpt]
  rw [decMapF_mapOptE (d := Except.ok) (e := id) (n := id)
      (wfMapB_sKeys hwf.1) (fun l _ p _ => rfl),
    decPtrF_ptrOpt (n := normServer)
      (fun y hy => decServer_enc y (wfPtrB_elem hwf.2 y hy))
      (fun y _ => by simp [encServer, mkObj])]
  rfl

/-- `Response` (source: `src/unnamed/part_003`). -/
structure Response where
  description : String
  headers : Option (List (String × Header))
  content : Option (List (String × MediaType))
  links : Option (List (String × Link))

def encResponse (x : Response) : Json :=
  mkObj [("description", strReq x.description), ("headers", mapOptE encHeader x.headers),
    ("content", mapOptE encMediaType x.content), ("links", mapOptE encLink x.links)]

def decResponse : Json → Except String Response
  | .null => .ok ⟨"", none, none, none⟩
  | .obj kvs => do
    let description ← decStrF (getF kvs "description")
    let headers ← decMapF decHeader (getF kvs "headers")
    let content ← decMapF decMediaType (getF kvs "content")
    let links ← decMapF decLink (getF kvs "links")
    .ok ⟨description, headers, content, links⟩
  | _ => .error "json: cannot unmarshal value into openapi.Response"

def normResponse (x : Response) : Response :=
  { x with
    headers := normMapO normHeader x.headers,
    content := normMapO normMediaType x.content,
    links := normMapO normLink x.links }

def wfResponse (x : Response) : Bool :=
  wfMapB wfHeader x.headers && wfMapB wfMediaType x.content && wfMapB wfLink x.links

theorem decResponse_enc (x : Response) (hwf : wfResponse x = true) :
    decResponse (encResponse x) = .ok (normResponse x) := by
  obtain ⟨d, hd, ct, lk⟩ := x
  simp only [wfResponse, Bool.and_eq_true] at hwf
  have hnd : (List.map Prod.fst [("description", strReq d), ("headers", mapOptE encHeader hd),
      ("content", mapOptE encMediaType ct), ("links", mapOptE encLink lk)]).Nodup := by simp
  simp only [encResponse, mkObj, decResponse, getF_collapse hnd]
  simp only [fLook, String.reduceEq, reduceIte, decStrF_strReq]
  rw [decMapF_mapOptE (n := normHeader) (wfMapB_sKeys hwf.1.1)
      (fun l hl p hp => decHeader_enc p.2 (wfMapB_elem hwf.1.1 l hl p hp)),
    decMapF_mapOptE (n := normMediaType) (wfMapB_sKeys hwf.1.2)
      (fun l hl p hp => decMediaType_enc p.2 (wfMapB_elem hwf.1.2 l hl p hp)),
    decMapF_mapOptE (n := normLink) (wfMapB_sKeys hwf.2)
      (fun l hl p hp => decLink_enc p.2 (wfMapB_elem hwf.2 l hl p hp))]
  rfl

/-- `RequestBody` (source: `request_body.go`). -/
structure RequestBody where
  ref : String
  description : String
  content : Option (List (String × MediaType))
  required : Bool

def encRequestBody (x : RequestBody) : Json :=
  mkObj [("$ref", strOpt x.ref), ("description", strOpt x.description),
    ("content", mapReqE encMediaType x.content), ("required", boolOpt x.required)]

def decRequestBody : Json → Except String RequestBody
  | .null => .ok ⟨"", "", none, false⟩
  | .obj kvs => do
    let ref ← decStrF (getF kvs "$ref")
    let description ← decStrF (getF kvs "description")
    let content ← decMapF decMediaType (getF kvs "content")
    let required ← decBoolF (getF kvs "required")
    .ok ⟨ref, description, content, required⟩
  | _ => .error "json: cannot unmarshal value into openapi.RequestBody"

def normRequestBody (x : RequestBody) : RequestBody :=
  { x with content := normMapR normMediaType x.content }

def wfRequestBody (x : RequestBody) : Bool :=
  wfMapB wfMediaType x.content

theorem decRequestBody_enc (x : RequestBody) (hwf : wfRequestBody x = true) :
    decRequestBody (encRequestBody x) = .ok (normRequestBody x) := by
  obtain ⟨rf, d, ct, r⟩ := x
  have hnd : (List.map Prod.fst [("$ref", strOpt rf), ("description", strOpt d),
      ("content", mapReqE encMediaType ct), ("required", boolOpt r)]).Nodup := by simp
  simp only [encRequestBody, mkObj, decRequestBody, getF_collapse hnd]
  simp only [fLook, String.reduceEq, reduceIte, decStrF_strOpt, decBoolF_boolOpt]
  rw [decMapF_mapReqE (n := normMediaType) (wfMapB_sKeys hwf)
      (fun l hl p hp => decMediaType_enc p.2 (wfMapB_elem hwf l hl p hp))]
  rfl

/-! ## The recursive `Operation` / `PathItem` / `Callback` cluster.
`Operation` (source: the `operation.go` part of the repo) holds
`map[string]Callback`, `Callback` (source: `src/unnamed/part_002`) is
`map[string]PathItem`, and `PathItem` refers back to `*Operation`. -/

mutual

inductive Operation where
  | mk (tags : Option (List String)) (summary description : String)
      (externalDocs : Option ExternalDocs) (operationId : String)
      (parameters : Option (List Parameter)) (requestBody : Option RequestBody)
      (responses : Option (List (String × Response)))
      (callbacks : Option (List (String × Option (List (String × PathItem)))))
      (deprecated : Bool) (security : Option (List (Option SecurityRequirement)))
      (servers : Option (List Server)) : Operation

/-- `PathItem`.  Modelled from the spec: up to eight optional `Operation`
slots keyed by HTTP method name; its source file is not under `src/`
(witnessed by `document.go`'s `AddOperation` dispatch). -/
inductive PathItem where
  | mk (get post put delete patch head options trace : Option Operation) : PathItem

end

/-- `Callback` (source: `src/unnamed/part_002`): `map[string]PathItem`. -/
abbrev Callback := List (String × PathItem)

/-- The zero value of `PathItem` (all method slots unset). -/
def zeroPathItem : PathItem := .mk none none none none none none none none

def PathItem.get : PathItem → Option Operation
  | .mk g _ _ _ _ _ _ _ => g

def PathItem.post : PathItem → Option Operation
  | .mk _ p _ _ _ _ _ _ => p

def PathItem.put : PathItem → Option Operation
  | .mk _ _ pu _ _ _ _ _ => pu

def PathItem.delete : PathItem → Option Operation
  | .mk _ _ _ d _ _ _ _ => d

def PathItem.patch : PathItem → Option Operation
  | .mk _ _ _ _ pa _ _ _ => pa

def PathItem.head : PathItem → Option Operation
  | .mk _ _ _ _ _ h _ _ => h

def PathItem.options : PathItem → Option Operation
  | .mk _ _ _ _ _ _ o _ => o

def PathItem.trace : PathItem → Option Operation
  | .mk _ _ _ _ _ _ _ t => t

def Operation.tags : Operation → Option (List String)
  | .mk t _ _ _ _ _ _ _ _ _ _ _ => t

def Operation.summary : Operation → String
  | .mk _ s _ _ _ _ _ _ _ _ _ _ => s

def Operation.operationId : Operation → String
  | .mk _ _ _ _ oid _ _ _ _ _ _ _ => oid

def Operation.parameters : Operation → Option (List Parameter)
  | .mk _ _ _ _ _ p _ _ _ _ _ _ => p

def Operation.responses : Operation → Option (List (String × Response))
  | .mk _ _ _ _ _ _ _ r _ _ _ _ => r

mutual

/-- Marshal an `Operation` (field-to-key mapping of `operation.go`;
`responses` carries no `omitempty`, so a `nil` map is emitted as `null`). -/
def encOperation : Operation → Json
  | .mk tags summary description externalDocs operationId parameters
      requestBody responses callbacks deprecated security servers =>
    mkObj [("tags", arrOpt .str tags), ("summary", strOpt summary),
      ("description", strOpt description),
      ("externalDocs", ptrOpt encExternalDocs externalDocs),
      ("operationId", strOpt operationId),
      ("parameters", arrOpt encParameter parameters),
      ("requestBody", ptrOpt encRequestBody requestBody),
      ("responses", mapReqE encResponse responses),
      ("callbacks", encCallbacksF callbacks),
      ("deprecated", boolOpt deprecated),
      ("security", arrOpt encSecReqE security),
      ("servers", arrOpt encServer servers)]

/-- Marshal a `map[string]Callback` field with `omitempty`. -/
def encCallbacksF : Option (List (String × Option (List (String × PathItem)))) → Option Json
  | none => none
  | some [] => none
  | some l => some (.obj (encCallbacksPairs l))

def encCallbacksPairs : List (String × Option (List (String × PathItem))) →
    List (String × Json)
  | [] => []
  | (k, cb) :: rest => (k, encCallbackV cb) :: encCallbacksPairs rest

/-- Marshal a `Callback` map value (the `nil` map becomes `null`). -/
def encCallbackV : Option (List (String × PathItem)) → Json
  | none => .null
  | some l => .obj (encCBItems l)

def encCBItems : List (String × PathItem) → List (String × Json)
  | [] => []
  | (k, pi) :: rest => (k, encPathItem pi) :: encCBItems rest

/-- Marshal a `PathItem`: the eight optional method slots. -/
def encPathItem : PathItem → Json
  | .mk g p pu d pa h o t =>
    mkObj [("get", encOpOF g), ("post", encOpOF p), ("put", encOpOF pu),
      ("delete", encOpOF d), ("patch", encOpOF pa), ("head", encOpOF h),
      ("options", encOpOF o), ("trace", encOpOF t)]

/-- Marshal a `*Operation` field with `omitempty`. -/
def encOpOF : Option Operation → Option Json
  | none => none
  | some op => some (encOperation op)

end

mutual

/-- Unmarshal an `Operation`. -/
def decOperation : Json → Except String Operation
  | .null => .ok (.mk none "" "" none "" none none none none false none none)
  | .obj kvs => do
    let tags ← decArrF decStrE (getF kvs "tags")
    let summary ← decStrF (getF kvs "summary")
    let description ← decStrF (getF kvs "description")
    let externalDocs ← decPtrF decExternalDocs (getF kvs "externalDocs")
    let operationId ← decStrF (getF kvs "operationId")
    let parameters ← decArrF decParameter (getF kvs "parameters")
    let requestBody ← decPtrF decRequestBody (getF kvs "requestBody")
    let responses ← decMapF decResponse (getF kvs "responses")
    let callbacks ← decCallbacksField kvs "callbacks"
    let deprecated ← decBoolF (getF kvs "deprecated")
    let security ← decArrF decSecReqE (getF kvs "security")
    let servers ← decArrF decServer (getF kvs "servers")
    .ok (.mk tags summary description externalDocs operationId parameters
      requestBody responses callbacks deprecated security servers)
  | _ => .error "json: cannot unmarshal value into openapi.Operation"
termination_by j => (sizeOf j, 0)

/-- Read a `map[string]Callback` field out of an object. -/
def decCallbacksField (kvs : List (String × Json)) (k : String) :
    Except String (Option (List (String × Option (List (String × PathItem))))) :=
  match getFD kvs k with
  | none => .ok none
  | some ⟨v, _hv⟩ => decCallbacksV v
termination_by (sizeOf kvs, 0)

/-- Unmarshal a `map[string]Callback` value. -/
def decCallbacksV : Json → Except String (Option (List (String × Option (List (String × PathItem)))))
  | .null => .ok none
  | .obj kvs => do
    let l ← decCallbacksPairs kvs
    .ok (some (l.foldl (fun m p => mapInsert p.1 p.2 m) []))
  | _ => .error "json: cannot unmarshal value into Go value of type map[string]openapi.Callback"
termination_by j => (sizeOf j, 0)

def decCallbacksPairs : List (String × Json) →
    Except String (List (String × Option (List (String × PathItem))))
  | [] => .ok []
  | (k, v) :: rest => do
    let x ← decCallbackV v
    let xs ← decCallbacksPairs rest
    .ok ((k, x) :: xs)
termination_by kvs => (sizeOf kvs, 0)

/-- Unmarshal a `Callback` map value (`null` gives the nil map). -/
def decCallbackV : Json → Except String (Option (List (String × PathItem)))
  | .null => .ok none
  | .obj kvs => do
    let l ← decCBItems kvs
    .ok (some (l.foldl (fun m p => mapInsert p.1 p.2 m) []))
  | _ => .error "json: cannot unmarshal value into openapi.Callback"
termination_by j => (sizeOf j, 0)

def decCBItems : List (String × Json) → Except String (List (String × PathItem))
  | [] => .ok []
  | (k, v) :: rest => do
    let x ← decPathItem v
    let xs ← decCBItems rest
    .ok ((k, x) :: xs)
termination_by kvs => (sizeOf kvs, 0)

/-- Unmarshal a `PathItem`. -/
def decPathItem : Json → Except String PathItem
  | .null => .ok zeroPathItem
  | .obj kvs => do
    let g ← decOpField kvs "get"
    let p ← decOpField kvs "post"
    let pu ← decOpField kvs "put"
    let d ← decOpField kvs "delete"
    let pa ← decOpField kvs "patch"
    let h ← decOpField kvs "head"
    let o ← decOpField kvs "options"
    let t ← decOpField kvs "trace"
    .ok (.mk g p pu d pa h o t)
  | _ => .error "json: cannot unmarshal value into openapi.PathItem"
termination_by j => (sizeOf j, 0)

/-- Read a `*Operation` field out of an object. -/
def decOpField (kvs : List (String × Json)) (k : String) :
    Except String (Option Operation) :=
  match getFD kvs k with
  | none => .ok none
  | some ⟨v, _hv⟩ => decOpPtr v
termination_by (sizeOf kvs, 0)

/-- Unmarshal a `*Operation` value (`null` gives the nil pointer). -/
def decOpPtr : Json → Except String (Option Operation)
  | .null => .ok none
  | j => Except.map some (decOperation j)
termination_by j => (sizeOf j, 1)

end

mutual

/-- Normal form of an `Operation` under a decode-after-encode cycle. -/
def normOperation : Operation → Operation
  | .mk tags summary description externalDocs operationId parameters
      requestBody responses callbacks deprecated security servers =>
    .mk (normArr id tags) summary description externalDocs operationId
      (normArr normParameter parameters) (requestBody.map normRequestBody)
      (normMapR normResponse responses) (normCallbacksF callbacks) deprecated
      (normArr id security) (normArr normServer servers)

def normCallbacksF : Option (List (String × Option (List (String × PathItem)))) →
    Option (List (String × Option (List (String × PathItem))))
  | none => none
  | some [] => none
  | some l => some (normCallbacksPairs l)

def normCallbacksPairs : List (String × Option (List (String × PathItem))) →
    List (String × Option (List (String × PathItem)))
  | [] => []
  | (k, cb) :: rest => (k, normCallbackV cb) :: normCallbacksPairs rest

def normCallbackV : Option (List (String × PathItem)) → Option (List (String × PathItem))
  | none => none
  | some l => some (normCBItems l)

def normCBItems : List (String × PathItem) → List (String × PathItem)
  | [] => []
  | (k, pi) :: rest => (k, normPathItem pi) :: normCBItems rest

def normPathItem : PathItem → PathItem
  | .mk g p pu d pa h o t =>
    .mk (normOpO g) (normOpO p) (normOpO pu) (normOpO d) (normOpO pa)
      (normOpO h) (normOpO o) (normOpO t)

def normOpO : Option Operation → Option Operation
  | none => none
  | some op => some (normOperation op)

end

mutual

/-- Canonical-key well-formedness of an `Operation`. -/
def wfOperation : Operation → Bool
  | .mk _ _ _ _ _ parameters requestBody responses callbacks _ security servers =>
    wfArrB wfParameter parameters && wfPtrB wfRequestBody requestBody &&
      wfMapB wfResponse responses && wfCallbacksF callbacks &&
      wfArrB wfSecReqE security && wfArrB wfServer servers

def wfCallbacksF : Option (List (String × Option (List (String × PathItem)))) → Bool
  | none => true
  | some l => decide (sKeys l) && wfCallbacksPairs l

def wfCallbacksPairs : List (String × Option (List (String × PathItem))) → Bool
  | [] => true
  | (_, cb) :: rest => wfCallbackV cb && wfCallbacksPairs rest

def wfCallbackV : Option (List (String × PathItem)) → Bool
  | none => true
  | some l => decide (sKeys l) && wfCBItems l

def wfCBItems : List (String × PathItem) → Bool
  | [] => true
  | (_, pi) :: rest => wfPathItem pi && wfCBItems rest

def wfPathItem : PathItem → Bool
  | .mk g p pu d pa h o t =>
    wfOpO g && wfOpO p && wfOpO pu && wfOpO d && wfOpO pa && wfOpO h &&
      wfOpO o && wfOpO t

def wfOpO : Option Operation → Bool
  | none => true
  | some op => wfOperation op

end

theorem decOpPtr_obj (kvs : List (String × Json)) :
    decOpPtr (.obj kvs) = Except.map some (decOperation (.obj kvs)) := by
  simp [decOpPtr]

theorem decOpPtr_encOp_eq (op : Operation) :
    decOpPtr (encOperation op) = Except.map some (decOperation (encOperation op)) := by
  cases op
  rw [encOperation]
  exact decOpPtr_obj _

theorem encOperation_ne_null (op : Operation) : encOperation op ≠ Json.null := by
  cases op
  rw [encOperation]
  simp [mkObj]

theorem decCallbacksField_eq (kvs : List (String × Json)) (k : String) :
    decCallbacksField kvs k =
      (match getF kvs k with
        | none => Except.ok none
        | some v => decCallbacksV v) := by
  rw [decCallbacksField]
  exact matchOpt_getFD kvs k decCallbacksV (Except.ok none)

theorem decOpField_eq (kvs : List (String × Json)) (k : String) :
    decOpField kvs k =
      (match getF kvs k with
        | none => Except.ok none
        | some v => decOpPtr v) := by
  rw [decOpField]
  exact matchOpt_getFD kvs k decOpPtr (Except.ok none)

theorem normCallbacksPairs_eq_map (l : List (String × Option (List (String × PathItem)))) :
    normCallbacksPairs l = l.map (fun p => (p.1, normCallbackV p.2)) := by
  induction l with
  | nil => rfl
  | cons p rest ih =>
    obtain ⟨k, cb⟩ := p
    simp [normCallbacksPairs, ih]

theorem normCBItems_eq_map (l : List (String × PathItem)) :
    normCBItems l = l.map (fun p => (p.1, normPathItem p.2)) := by
  induction l with
  | nil => rfl
  | cons p rest ih =>
    obtain ⟨k, pi⟩ := p
    simp [normCBItems, ih]

mutual

theorem decOperation_enc (op : Operation) (hwf : wfOperation op = true) :
    decOperation (encOperation op) = Except.ok (normOperation op) := by
  cases op with
  | mk tg sm ds ed oid pa rb rs cb dp sec srv =>
    simp only [wfOperation, Bool.and_eq_true] at hwf
    obtain ⟨⟨⟨⟨⟨hPA, hRB⟩, hRS⟩, hCB⟩, hSEC⟩, hSRV⟩ := hwf
    have hnd : (List.map Prod.fst [("tags", arrOpt Json.str tg), ("summary", strOpt sm),
        ("description", strOpt ds), ("externalDocs", ptrOpt encExternalDocs ed),
        ("operationId", strOpt oid), ("parameters", arrOpt encParameter pa),
        ("requestBody", ptrOpt encRequestBody rb), ("responses", mapReqE encResponse rs),
        ("callbacks", encCallbacksF cb), ("deprecated", boolOpt dp),
        ("security", arrOpt encSecReqE sec), ("servers", arrOpt encServer srv)]).Nodup := by
      simp
    have eCB : (match encCallbacksF cb with
        | none => Except.ok none
        | some v => decCallbacksV v) = Except.ok (normCallbacksF cb) := by
      cases cb with
      | none => simp [encCallbacksF, normCallbacksF]
      | some l =>
        cases l with
        | nil => simp [encCallbacksF, normCallbacksF]
        | cons x xs =>
          simp only [wfCallbacksF, Bool.and_eq_true, decide_eq_true_eq] at hCB
          simp only [encCallbacksF, decCallbacksV]
          rw [decCallbacksPairs_enc (x :: xs) hCB.2]
          show Except.ok (some (List.foldl (fun m p => mapInsert p.1 p.2 m) []
              (normCallbacksPairs (x :: xs)))) = _
          rw [normCallbacksPairs_eq_map, foldl_mapInsert_sorted (sKeys_map_values _ hCB.1),
            ← normCallbacksPairs_eq_map]
          simp [normCallbacksF]
    rw [encOperation]
    simp only [mkObj, decOperation, decCallbacksField_eq, getF_collapse hnd]
    simp only [fLook, String.reduceEq, reduceIte, decStrF_strOpt, decBoolF_boolOpt,
      decJsonF_jsonOpt]
    rw [eCB,
      decArrF_arrOpt (d := decStrE) (e := Json.str) (n := id)
        (fun _ _ x _ => decStrE_str x),
      decPtrF_ptrOpt (d := decExternalDocs) (e := encExternalDocs) (n := id)
        (fun y _ => decExternalDocs_enc y) (fun y _ => by simp [encExternalDocs, mkObj]),
      decArrF_arrOpt (d := decParameter) (e := encParameter) (n := normParameter)
        (fun l hl x hx => decParameter_enc x (wfArrB_elem hPA l hl x hx)),
      decPtrF_ptrOpt (d := decRequestBody) (e := encRequestBody) (n := normRequestBody)
        (fun y hy => decRequestBody_enc y (wfPtrB_elem hRB y hy))
        (fun y _ => by simp [encRequestBody, mkObj]),
      decMapF_mapReqE (n := normResponse) (wfMapB_sKeys hRS)
        (fun l hl p hp => decResponse_enc p.2 (wfMapB_elem hRS l hl p hp)),
      decArrF_arrOpt (d := decSecReqE) (e := encSecReqE) (n := id)
        (fun l hl x hx => decSecReqE_enc (wfArrB_elem hSEC l hl x hx)),
      decArrF_arrOpt (d := decServer) (e := encServer) (n := normServer)
        (fun l hl x hx => decServer_enc x (wfArrB_elem hSRV l hl x hx))]
    simp only [normOperation, Option.map_id]
    rfl
termination_by sizeOf op

theorem decCallbacksPairs_enc : ∀ (l : List (String × Option (List (String × PathItem)))),
    wfCallbacksPairs l = true →
    decCallbacksPairs (encCallbacksPairs l) = Except.ok (normCallbacksPairs l)
  | [], _ => by simp [encCallbacksPairs, decCallbacksPairs, normCallbacksPairs]
  | (k, cbv) :: rest, hwf => by
    simp only [wfCallbacksPairs, Bool.and_eq_true] at hwf
    simp only [encCallbacksPairs, decCallbacksPairs]
    have ecbv : decCallbackV (encCallbackV cbv) = Except.ok (normCallbackV cbv) := by
      cases cbv with
      | none => simp [encCallbackV, decCallbackV, normCallbackV]
      | some l' =>
        have hcv := hwf.1
        simp only [wfCallbackV, Bool.and_eq_true, decide_eq_true_eq] at hcv
        simp only [encCallbackV, decCallbackV]
        rw [decCBItems_enc l' hcv.2]
        show Except.ok (some (List.foldl (fun m p => mapInsert p.1 p.2 m) []
            (normCBItems l'))) = _
        rw [normCBItems_eq_map, foldl_mapInsert_sorted (sKeys_map_values _ hcv.1),
          ← normCBItems_eq_map]
        simp [normCallbackV]
    rw [ecbv, decCallbacksPairs_enc rest hwf.2]
    rfl
termination_by l _ => sizeOf l
decreasing_by
  all_goals subst_vars
  all_goals simp_wf
  all_goals omega

theorem decCBItems_enc : ∀ (l : List (String × PathItem)), wfCBItems l = true →
    decCBItems (encCBItems l) = Except.ok (normCBItems l)
  | [], _ => by simp [encCBItems, decCBItems, normCBItems]
  | (k, pi) :: rest, hwf => by
    simp only [wfCBItems, Bool.and_eq_true] at hwf
    simp only [encCBItems, decCBItems]
    rw [decPathItem_enc pi hwf.1, decCBItems_enc rest hwf.2]
    rfl
termination_by l _ => sizeOf l

theorem decPathItem_enc (pi : PathItem) (hwf : wfPathItem pi = true) :
    decPathItem (encPathItem pi) = Except.ok (normPathItem pi) := by
  cases pi with
  | mk g p pu d pa h o t =>
    simp only [wfPathItem, Bool.and_eq_true] at hwf
    obtain ⟨⟨⟨⟨⟨⟨⟨hG, hP⟩, hPU⟩, hD⟩, hPA⟩, hH⟩, hO⟩, hT⟩ := hwf
    have hnd : (List.map Prod.fst [("get", encOpOF g), ("post", encOpOF p),
        ("put", encOpOF pu), ("delete", encOpOF d), ("patch", encOpOF pa),
        ("head", encOpOF h), ("options", encOpOF o), ("trace", encOpOF t)]).Nodup := by
      simp
    rw [encPathItem]
    simp only [mkObj, decPathItem, decOpField_eq, getF_collapse hnd]
    simp only [fLook, String.reduceEq, reduceIte]
    rw [decOpPtrMatch_enc g hG, decOpPtrMatch_enc p hP, decOpPtrMatch_enc pu hPU,
      decOpPtrMatch_enc d hD, decOpPtrMatch_enc pa hPA, decOpPtrMatch_enc h hH,
      decOpPtrMatch_enc o hO, decOpPtrMatch_enc t hT]
    simp only [normPathItem]
    rfl
termination_by sizeOf pi

theorem decOpPtrMatch_enc (o : Option Operation) (hwf : wfOpO o = true) :
    (match encOpOF o with
      | none => Except.ok none
      | some v => decOpPtr v) = Except.ok (normOpO o) := by
  cases o with
  | none => simp [encOpOF, normOpO]
  | some op =>
    simp only [wfOpO] at hwf
    simp only [encOpOF]
    rw [decOpPtr_encOp_eq, decOperation_enc op hwf]
    simp [normOpO, Except.map]
termination_by sizeOf o

end

theorem decSchemaPtrE_encPtrE (o : Option Schema) (hwf : wfSchemaO o = true) :
    decSchemaPtrE (encSchemaPtrE o) = .ok (normSchemaO o) := by
  cases o with
  | none => simp [encSchemaPtrE, decSchemaPtrE, normSchemaO]
  | some s =>
    simp only [wfSchemaO] at hwf
    simp only [encSchemaPtrE]
    rw [decSchemaPtrE_encS_eq, decSchema_enc s hwf]
    simp [normSchemaO, Except.map]

theorem decCallbackV_enc (o : Option (List (String × PathItem)))
    (hwf : wfCallbackV o = true) :
    decCallbackV (encCallbackV o) = .ok (normCallbackV o) := by
  cases o with
  | none => simp [encCallbackV, decCallbackV, normCallbackV]
  | some l =>
    simp only [wfCallbackV, Bool.and_eq_true, decide_eq_true_eq] at hwf
    simp only [encCallbackV, decCallbackV]
    rw [decCBItems_enc l hwf.2]
    show Except.ok (some (List.foldl (fun m p => mapInsert p.1 p.2 m) []
        (normCBItems l))) = _
    rw [normCBItems_eq_map, foldl_mapInsert_sorted (sKeys_map_values _ hwf.1),
      ← normCBItems_eq_map]
    simp [normCallbackV]

/-- `Components` (source: `components.go`): nine reusable-object maps. -/
structure Components where
  schemas : Option (List (String × Option Schema))
  responses : Option (List (String × Response))
  parameters : Option (List (String × Parameter))
  examples : Option (List (String × Example))
  requestBodies : Option (List (String × RequestBody))
  headers : Option (List (String × Header))
  securitySchemes : Option (List (String × SecurityScheme))
  links : Option (List (String × Link))
  callbacks : Option (List (String × Option (List (String × PathItem))))

def encComponents (x : Components) : Json :=
  mkObj [("schemas", mapOptE encSchemaPtrE x.schemas),
    ("responses", mapOptE encResponse x.responses),
    ("parameters", mapOptE encParameter x.parameters),
    ("examples", mapOptE encExample x.examples),
    ("requestBodies", mapOptE encRequestBody x.requestBodies),
    ("headers", mapOptE encHeader x.headers),
    ("securitySchemes", mapOptE encSecurityScheme x.securitySchemes),
    ("links", mapOptE encLink x.links),
    ("callbacks", mapOptE encCallbackV x.callbacks)]

def decComponents : Json → Except String Components
  | .null => .ok ⟨none, none, none, none, none, none, none, none, none⟩
  | .obj kvs => do
    let schemas ← decMapF decSchemaPtrE (getF kvs "schemas")
    let responses ← decMapF decResponse (getF kvs "responses")
    let parameters ← decMapF decParameter (getF kvs "parameters")
    let examples ← decMapF decExample (getF kvs "examples")
    let requestBodies ← decMapF decRequestBody (getF kvs "requestBodies")
    let headers ← decMapF decHeader (getF kvs "headers")
    let securitySchemes ← decMapF decSecurityScheme (getF kvs "securitySchemes")
    let links ← decMapF decLink (getF kvs "links")
    let callbacks ← decMapF decCallbackV (getF kvs "callbacks")
    .ok ⟨schemas, responses, parameters, examples, requestBodies, headers,
      securitySchemes, links, callbacks⟩
  | _ => .error "json: cannot unmarshal value into openapi.Components"

def normComponents (x : Components) : Components :=
  ⟨normMapO normSchemaO x.schemas, normMapO normResponse x.responses,
    normMapO normParameter x.parameters, normMapO normExample x.examples,
    normMapO normRequestBody x.requestBodies, normMapO normHeader x.headers,
    normMapO normSecurityScheme x.securitySchemes, normMapO normLink x.links,
    normMapO normCallbackV x.callbacks⟩

def wfComponents (x : Components) : Bool :=
  wfMapB wfSchemaO x.schemas && wfMapB wfResponse x.responses &&
    wfMapB wfParameter x.parameters && wfMapB (fun _ => true) x.examples &&
    wfMapB wfRequestBody x.requestBodies && wfMapB wfHeader x.headers &&
    wfMapB wfSecurityScheme x.securitySchemes && wfMapB wfLink x.links &&
    wfMapB wfCallbackV x.callbacks

theorem decComponents_enc (x : Components) (hwf : wfComponents x = true) :
    decComponents (encComponents x) = .ok (normComponents x) := by
  obtain ⟨sc, rs, pa, ex, rb, hd, ss, lk, cb⟩ := x
  simp only [wfComponents, Bool.and_eq_true] at hwf
  obtain ⟨⟨⟨⟨⟨⟨⟨⟨hSC, hRS⟩, hPA⟩, hEX⟩, hRB⟩, hHD⟩, hSS⟩, hLK⟩, hCB⟩ := hwf
  have hnd : (List.map Prod.fst [("schemas", mapOptE encSchemaPtrE sc),
      ("responses", mapOptE encResponse rs), ("parameters", mapOptE encParameter pa),
      ("examples", mapOptE encExample ex), ("requestBodies", mapOptE encRequestBody rb),
      ("headers", mapOptE encHeader hd), ("securitySchemes", mapOptE encSecurityScheme ss),
      ("links", mapOptE encLink lk), ("callbacks", mapOptE encCallbackV cb)]).Nodup := by
    simp
  simp only [encComponents, mkObj, decComponents, getF_collapse hnd]
  simp only [fLook, String.reduceEq, reduceIte]
  rw [decMapF_mapOptE (n := normSchemaO) (wfMapB_sKeys hSC)
      (fun l hl p hp => decSchemaPtrE_encPtrE p.2 (wfMapB_elem hSC l hl p hp)),
    decMapF_mapOptE (n := normResponse) (wfMapB_sKeys hRS)
      (fun l hl p hp => decResponse_enc p.2 (wfMapB_elem hRS l hl p hp)),
    decMapF_mapOptE (n := normParameter) (wfMapB_sKeys hPA)
      (fun l hl p hp => decParameter_enc p.2 (wfMapB_elem hPA l hl p hp)),
    decMapF_mapOptE (n := normExample) (wfMapB_sKeys hEX)
      (fun l _ p _ => decExample_enc p.2),
    decMapF_mapOptE (n := normRequestBody) (wfMapB_sKeys hRB)
      (fun l hl p hp => decRequestBody_enc p.2 (wfMapB_elem hRB l hl p hp)),
    decMapF_mapOptE (n := normHeader) (wfMapB_sKeys hHD)
      (fun l hl p hp => decHeader_enc p.2 (wfMapB_elem hHD l hl p hp)),
    decMapF_mapOptE (n := normSecurityScheme) (wfMapB_sKeys hSS)
      (fun l hl p hp => decSecurityScheme_enc p.2 (wfMapB_elem hSS l hl p hp)),
    decMapF_mapOptE (n := normLink) (wfMapB_sKeys hLK)
      (fun l hl p hp => decLink_enc p.2 (wfMapB_elem hLK l hl p hp)),
    decMapF_mapOptE (n := normCallbackV) (wfMapB_sKeys hCB)
      (fun l hl p hp => decCallbackV_enc p.2 (wfMapB_elem hCB l hl p hp))]
  rfl

/-- `Document` (source: `document.go`): the root OpenAPI v3 document. -/
structure Document where
  openapi : String
  info : Info
  servers : Option (List Server)
  paths : Option (List (String × PathItem))
  components : Option Components
  security : Option (List (Option SecurityRequirement))
  tags : Option (List Tag)
  externalDocs : Option ExternalDocs

/-- The zero value of `Info`. -/
def zeroInfo : Info := ⟨"", "", "", none, none, ""⟩

def encDocument (x : Document) : Json :=
  mkObj [("openapi", strReq x.openapi), ("info", some (encInfo x.info)),
    ("servers", arrOpt encServer x.servers),
    ("paths", mapReqE encPathItem x.paths),
    ("components", ptrOpt encComponents x.components),
    ("security", arrOpt encSecReqE x.security),
    ("tags", arrOpt encTag x.tags),
    ("externalDocs", ptrOpt encExternalDocs x.externalDocs)]

def decDocument : Json → Except String Document
  | .null => .ok ⟨"", zeroInfo, none, none, none, none, none, none⟩
  | .obj kvs => do
    let openapi ← decStrF (getF kvs "openapi")
    let info ← (match getF kvs "info" with
      | none => Except.ok zeroInfo
      | some j => decInfo j)
    let servers ← decArrF decServer (getF kvs "servers")
    let paths ← decMapF decPathItem (getF kvs "paths")
    let components ← decPtrF decComponents (getF kvs "components")
    let security ← decArrF decSecReqE (getF kvs "security")
    let tags ← decArrF decTag (getF kvs "tags")
    let externalDocs ← decPtrF decExternalDocs (getF kvs "externalDocs")
    .ok ⟨openapi, info, servers, paths, components, security, tags, externalDocs⟩
  | _ => .error "json: cannot unmarshal value into openapi.Document"

/-- Normal form of a `Document` under a decode-after-encode cycle: the
original document with empty `omitempty` collections collapsed to absent
(`nil`) ones, interface-held nulls dropped, and `AdditionalProperties`
defaults made explicit — everywhere in the graph. -/
def normDocument (x : Document) : Document :=
  ⟨x.openapi, x.info, normArr normServer x.servers,
    normMapR normPathItem x.paths, x.components.map normComponents,
    normArr id x.security, normArr id x.tags, x.externalDocs⟩

def wfDocument (x : Document) : Bool :=
  wfArrB wfServer x.servers && wfMapB wfPathItem x.paths &&
    wfPtrB wfComponents x.components && wfArrB wfSecReqE x.security

theorem decDocument_enc (x : Document) (hwf : wfDocument x = true) :
    decDocument (encDocument x) = .ok (normDocument x) := by
  obtain ⟨oa, inf, sv, pt, cp, sec, tg, ed⟩ := x
  simp only [wfDocument, Bool.and_eq_true] at hwf
  obtain ⟨⟨⟨hSV, hPT⟩, hCP⟩, hSEC⟩ := hwf
  have hnd : (List.map Prod.fst [("openapi", strReq oa), ("info", some (encInfo inf)),
      ("servers", arrOpt encServer sv), ("paths", mapReqE encPathItem pt),
      ("components", ptrOpt encComponents cp), ("security", arrOpt encSecReqE sec),
      ("tags", arrOpt encTag tg), ("externalDocs", ptrOpt encExternalDocs ed)]).Nodup := by
    simp
  simp only [encDocument, mkObj, decDocument, getF_collapse hnd]
  simp only [fLook, String.reduceEq, reduceIte, decStrF_strReq]
  rw [decInfo_enc inf,
    decArrF_arrOpt (d := decServer) (e := encServer) (n := normServer)
      (fun l hl x hx => decServer_enc x (wfArrB_elem hSV l hl x hx)),
    decMapF_mapReqE (n := normPathItem) (wfMapB_sKeys hPT)
      (fun l hl p hp => decPathItem_enc p.2 (wfMapB_elem hPT l hl p hp)),
    decPtrF_ptrOpt (d := decComponents) (e := encComponents) (n := normComponents)
      (fun y hy => decComponents_enc y (wfPtrB_elem hCP y hy))
      (fun y _ => by simp [encComponents, mkObj]),
    decArrF_arrOpt (d := decSecReqE) (e := encSecReqE) (n := id)
      (fun l hl x hx => decSecReqE_enc (wfArrB_elem hSEC l hl x hx)),
    decArrF_arrOpt (d := decTag) (e := encTag) (n := id)
      (fun _ _ x _ => decTag_enc x),
    decPtrF_ptrOpt (d := decExternalDocs) (e := encExternalDocs) (n := id)
      (fun y _ => decExternalDocs_enc y) (fun y _ => by simp [encExternalDocs, mkObj])]
  simp only [normDocument, Option.map_id]
  rfl

/-! ## Builders (source: `document.go`, `operation.go`, `part_003`, `doc.go`) -/

/-- Go's `append` on a slice: appending nothing returns the slice unchanged
(a `nil` slice stays `nil`); appending to `nil` allocates. -/
def goAppend : Option (List α) → List α → Option (List α)
  | o, [] => o
  | none, xs => some xs
  | some l, xs => some (l ++ xs)

/-- `NewDocument` (source: `document.go` lines 29-39): fixed version literal
`"3.0.3"`, title/version in `Info`, empty non-nil `Paths` and `Tags`. -/
def NewDocument (title version : String) : Document :=
  ⟨"3.0.3", ⟨title, "", "", none, none, version⟩, none, some [], none, none,
    some [], none⟩

/-- `Document.WithInfo` (source: `document.go`). -/
def Document.WithInfo (d : Document) (description termsOfService : String) : Document :=
  { d with info := { d.info with
      description := description,
      termsOfService := termsOfService } }

/-- `Document.AddPath` (source: `document.go` lines 108-116): stores an empty
`PathItem` under `path` and returns (a pointer to a copy of) it. -/
def Document.AddPath (d : Document) (path : String) : PathItem × Document :=
  let paths := d.paths.getD []
  (zeroPathItem, { d with paths := some (mapInsert path zeroPathItem paths) })

/-- `Document.GetPath` (source: `document.go` lines 119-127): looks the path
up, creating the entry when absent; returns a pointer to a copy. -/
def Document.GetPath (d : Document) (path : String) : PathItem × Document :=
  let paths := d.paths.getD []
  let d' := { d with paths := some paths }
  match mapLookup path paths with
  | some pi => (pi, d')
  | none => d'.AddPath path

/-- `Document.AddOperation` (source: `document.go` lines 139-163): look up or
create the `PathItem`, dispatch the method name to one of eight slots (an
unrecognized name falls through the `switch` silently), and store the item
back. -/
def Document.AddOperation (d : Document) (path method : String)
    (operation : Operation) : Document :=
  let pr := d.GetPath path
  let d' := pr.2
  let pathItem :=
    match pr.1 with
    | .mk g p pu dl pa h o t =>
      if method = "GET" then PathItem.mk (some operation) p pu dl pa h o t
      else if method = "POST" then PathItem.mk g (some operation) pu dl pa h o t
      else if method = "PUT" then PathItem.mk g p (some operation) dl pa h o t
      else if method = "DELETE" then PathItem.mk g p pu (some operation) pa h o t
      else if method = "PATCH" then PathItem.mk g p pu dl (some operation) h o t
      else if method = "HEAD" then PathItem.mk g p pu dl pa (some operation) o t
      else if method = "OPTIONS" then PathItem.mk g p pu dl pa h (some operation) t
      else if method = "TRACE" then PathItem.mk g p pu dl pa h o (some operation)
      else PathItem.mk g p pu dl pa h o t
  { d' with paths := some (mapInsert path pathItem (d'.paths.getD [])) }

/-- `NewOperation` (source: `operation.go` lines 134-143): basic settings
with `Responses`, `Tags` and `Parameters` initialized to empty containers. -/
def NewOperation (operationID summary description : String) : Operation :=
  .mk (some []) summary description none operationID (some []) none (some [])
    none false none none

def Operation.WithTags (o : Operation) (tags : List String) : Operation :=
  match o with
  | .mk tg sm ds ed oid pa rb rs cb dp sec srv =>
    .mk (goAppend tg tags) sm ds ed oid pa rb rs cb dp sec srv

def Operation.WithTag (o : Operation) (tag : String) : Operation :=
  match o with
  | .mk tg sm ds ed oid pa rb rs cb dp sec srv =>
    .mk (goAppend tg [tag]) sm ds ed oid pa rb rs cb dp sec srv

def Operation.WithDeprecated (o : Operation) : Operation :=
  match o with
  | .mk tg sm ds ed oid pa rb rs cb _ sec srv =>
    .mk tg sm ds ed oid pa rb rs cb true sec srv

def Operation.WithParameter (o : Operation) (param : Parameter) : Operation :=
  match o with
  | .mk tg sm ds ed oid pa rb rs cb dp sec srv =>
    .mk tg sm ds ed oid (goAppend pa [param]) rb rs cb dp sec srv

def Operation.WithPathParameter (o : Operation) (name description : String)
    (schema : Option Schema) : Operation :=
  o.WithParameter ⟨name, "path", description, true, false, false, "", none,
    false, schema, none, none, none⟩

def Operation.WithQueryParameter (o : Operation) (name description : String)
    (required : Bool) (schema : Option Schema) : Operation :=
  o.WithParameter ⟨name, "query", description, required, false, false, "", none,
    false, schema, none, none, none⟩

def Operation.WithHeaderParameter (o : Operation) (name description : String)
    (required : Bool) (schema : Option Schema) : Operation :=
  o.WithParameter ⟨name, "header", description, required, false, false, "", none,
    false, schema, none, none, none⟩

def Operation.WithRequestBody (o : Operation) (description : String)
    (required : Bool) (content : Option (List (String × MediaType))) : Operation :=
  match o with
  | .mk tg sm ds ed oid pa _ rs cb dp sec srv =>
    .mk tg sm ds ed oid pa (some ⟨"", description, content, required⟩) rs cb dp sec srv

def Operation.WithJSONRequestBody (o : Operation) (description : String)
    (required : Bool) (schema : Option Schema) : Operation :=
  o.WithRequestBody description required
    (some [("application/json", ⟨schema, none, none, none⟩)])

/-- `Operation.WithResponse` (source: `operation.go` lines 223-226): stores
`response` under `code` via `o.Responses[code] = response`.  Assigning into
a `nil` Go map panics, modelled by `none`. -/
def Operation.WithResponse (o : Operation) (code _description : String)
    (response : Response) : Option Operation :=
  match o with
  | .mk tg sm ds ed oid pa rb rs cb dp sec srv =>
    match rs with
    | none => none
    | some m => some (.mk tg sm ds ed oid pa rb (some (mapInsert code response m))
        cb dp sec srv)

def Operation.WithJSONResponse (o : Operation) (code description : String)
    (schema : Option Schema) : Option Operation :=
  o.WithResponse code description
    ⟨description, none, some [("application/json", ⟨schema, none, none, none⟩)], none⟩

def Operation.WithOkResponse (o : Operation) (description : String)
    (schema : Option Schema) : Option Operation :=
  o.WithJSONResponse "200" description schema

def Operation.WithCreatedResponse (o : Operation) (description : String)
    (schema : Option Schema) : Option Operation :=
  o.WithJSONResponse "201" description schema

def Operation.WithNoContentResponse (o : Operation) : Option Operation :=
  o.WithResponse "204" "No Content" ⟨"No Content", none, none, none⟩

def Operation.WithBadRequestResponse (o : Operation) (description : String) :
    Option Operation :=
  o.WithResponse "400" description ⟨description, none, none, none⟩

def Operation.WithUnauthorizedResponse (o : Operation) (description : String) :
    Option Operation :=
  o.WithResponse "401" description ⟨description, none, none, none⟩

def Operation.WithForbiddenResponse (o : Operation) (description : String) :
    Option Operation :=
  o.WithResponse "403" description ⟨description, none, none, none⟩

def Operation.WithNotFoundResponse (o : Operation) (description : String) :
    Option Operation :=
  o.WithResponse "404" description ⟨description, none, none, none⟩

def Operation.WithInternalServerErrorResponse (o : Operation) (description : String) :
    Option Operation :=
  o.WithResponse "500" description ⟨description, none, none, none⟩

def Operation.WithExternalDocs (o : Operation) (url description : String) : Operation :=
  match o with
  | .mk tg sm ds _ oid pa rb rs cb dp sec srv =>
    .mk tg sm ds (some ⟨description, url⟩) oid pa rb rs cb dp sec srv

/-- `NewResponse` (source: `part_003` lines 11-19): description plus empty
non-nil `Headers`, `Content` and `Links` maps. -/
def NewResponse (description : String) : Response :=
  ⟨description, some [], some [], some []⟩

/-- `NewJSONResponse` (source: `part_003` lines 21-31). -/
def NewJSONResponse (description : String) (schema : Option Schema) : Response :=
  ⟨description, none, some [("application/json", ⟨schema, none, none, none⟩)], none⟩

/-- `NewParameter` (source: `doc.go` lines 42-49): only name, location and
description are set; the `Examples` and `Content` maps stay `nil`. -/
def NewParameter (name in_ description : String) : Parameter :=
  ⟨name, in_, description, false, false, false, "", none, false, none, none,
    none, none⟩

/-! ## Claim theorems -/

/-- The field list of an encoded object. -/
def encObjFields : Json → List (String × Json)
  | .obj kvs => kvs
  | _ => []

/-- C1: `AdditionalProperties.MarshalJSON` emits a bare boolean literal when
the boolean alternative is populated; otherwise, when the schema alternative
is populated, it emits the nested schema's normal object encoding; and when
neither alternative is populated it emits the literal `false`.  In
particular, `AdditionalProperties{Bool: true}` encodes to the literal
`true`. -/
theorem claim_C1 :
    (∀ ap : AdditionalProperties,
      (∀ b, ap.bool = some b → encAP ap = .bool b) ∧
      (ap.bool = none → ∀ s, ap.schema = some s → encAP ap = encSchema s) ∧
      (ap.bool = none → ap.schema = none → encAP ap = .bool false)) ∧
    encAP (.mk (some true) none) = .bool true := by
  constructor
  · intro ap
    obtain ⟨b, sc⟩ := ap
    refine ⟨?_, ?_, ?_⟩
    · intro b' hb
      simp only [AdditionalProperties.bool] at hb
      subst hb
      simp [encAP]
    · intro hb s hs
      simp only [AdditionalProperties.bool] at hb
      simp only [AdditionalProperties.schema] at hs
      subst hb
      subst hs
      simp [encAP]
    · intro hb hs
      simp only [AdditionalProperties.bool] at hb
      simp only [AdditionalProperties.schema] at hs
      subst hb
      subst hs
      simp [encAP]
  · simp [encAP]

/-- C1 witness: at `AdditionalProperties{Bool: false, Schema: nil}` the
boolean alternative wins and the literal `false` is emitted. -/
theorem claim_C1_witness :
    encAP (.mk (some false) none) = .bool false :=
  (claim_C1.1 (.mk (some false) none)).1 false rfl

/-- C2: `AdditionalProperties.UnmarshalJSON` first attempts a boolean
decode; on success the boolean alternative is populated, the schema
alternative is nil and no error is returned.  On failure a schema decode is
attempted; on success the schema alternative is populated and the boolean
alternative is nil.  If both fail, the returned error is the boolean-decode
failure. -/
theorem claim_C2 (j : Json) :
    (∀ b, goUnmarshalBool j = .ok b →
      decAP j = .ok (.mk (some b) none)) ∧
    (∀ e s, goUnmarshalBool j = .error e → decSchema j = .ok s →
      decAP j = .ok (.mk none (some s))) ∧
    (∀ e e', goUnmarshalBool j = .error e → decSchema j = .error e' →
      decAP j = .error e) := by
  refine ⟨?_, ?_, ?_⟩
  · intro b hb
    simp [decAP, hb]
  · intro e s hb hs
    simp [decAP, hb, hs]
  · intro e e' hb hs
    simp [decAP, hb, hs]

/-- C2 witness: a JSON string decodes as neither boolean nor schema, and the
reported error is the boolean-decode failure. -/
theorem claim_C2_witness :
    decAP (.str "x") =
      .error "json: cannot unmarshal value into Go value of type bool" :=
  (claim_C2 (.str "x")).2.2
    "json: cannot unmarshal value into Go value of type bool"
    "json: cannot unmarshal value into openapi.Schema" rfl (by simp [decSchema])

/-- C7: a `Response` constructed via `NewResponse` (description only, no
content) encodes with the `description` key present and with no `content`
key at all — omitted rather than emitted as `{}` (the empty `headers` and
`links` maps are omitted too). -/
theorem claim_C7 (description : String) :
    getF (encObjFields (encResponse (NewResponse description))) "description" =
      some (.str description) ∧
    getF (encObjFields (encResponse (NewResponse description))) "content" = none ∧
    getF (encObjFields (encResponse (NewResponse description))) "headers" = none ∧
    getF (encObjFields (encResponse (NewResponse description))) "links" = none := by
  refine ⟨?_, ?_, ?_, ?_⟩ <;>
    simp [NewResponse, encResponse, mkObj, encObjFields, collapse, getF, strReq,
      mapOptE]

/-- C8: `NewDocument` pins the `openapi` version field to the literal
`"3.0.3"` for all arguments (while the package doc comment and the unit
test speak of 3.1.0), and stores title and version in `Info`. -/
theorem claim_C8 (title version : String) :
    (NewDocument title version).openapi = "3.0.3" ∧
    (NewDocument title version).info.title = title ∧
    (NewDocument title version).info.version = version :=
  ⟨rfl, rfl, rfl⟩

/-- C10: a freshly constructed `Document` has a non-nil empty `Paths` map
and a non-nil empty `Tags` list, for all title/version arguments. -/
theorem claim_C10 (title version : String) :
    (NewDocument title version).paths = some [] ∧
    (NewDocument title version).tags = some [] :=
  ⟨rfl, rfl⟩

/-- C4 counterexample: on a document whose `PathItem` at `/x` already has a
POST operation, `AddOperation(/x, "GET", …)` leaves that POST slot
populated — so for an arbitrary starting document the other seven slots do
not "remain unset". -/
theorem claim_C4_counterexample :
    (match mapLookup "/x" ((Document.AddOperation
        ⟨"3.0.3", zeroInfo, none,
          some [("/x", PathItem.mk none (some (NewOperation "b" "" "")) none none
            none none none none)],
          none, none, none, none⟩
        "/x" "GET" (NewOperation "a" "" "")).paths.getD []) with
      | some pi => pi.post
      | none => none) = some (NewOperation "b" "" "") := rfl

/-- C4 (amended): when the path is fresh (absent from `Paths`, as in the
spec's scenario), `AddOperation(p, "GET", op)` populates exactly the GET
slot, leaving the other seven unset; a subsequent
`AddOperation(p, "POST", op2)` populates POST and leaves GET (and every
other slot) unchanged.  On an arbitrary document the other slots are left
unchanged rather than unset. -/
theorem claim_C4 (d : Document) (p : String) (op op2 : Operation)
    (hfresh : mapLookup p (d.paths.getD []) = none) :
    mapLookup p ((d.AddOperation p "GET" op).paths.getD []) =
      some (PathItem.mk (some op) none none none none none none none) ∧
    mapLookup p (((d.AddOperation p "GET" op).AddOperation p "POST" op2).paths.getD []) =
      some (PathItem.mk (some op) (some op2) none none none none none none) := by
  have h1 : mapLookup p ((d.AddOperation p "GET" op).paths.getD []) =
      some (PathItem.mk (some op) none none none none none none none) := by
    simp only [Document.AddOperation, Document.GetPath, hfresh, Document.AddPath,
      zeroPathItem]
    simp only [String.reduceEq, reduceIte, Option.getD_some]
    exact mapLookup_insert_self p _ _
  refine ⟨h1, ?_⟩
  simp only [Document.AddOperation, Document.GetPath]
  rw [show ((d.AddOperation p "GET" op).paths.getD []) =
    (d.AddOperation p "GET" op).paths.getD [] from rfl] at h1
  simp only [Document.AddOperation, Document.GetPath, hfresh, Document.AddPath,
    zeroPathItem, Option.getD_some] at h1 ⊢
  rw [h1]
  simp only [String.reduceEq, reduceIte, Option.getD_some]
  exact mapLookup_insert_self p _ _

/-- C4 witness: the amended claim at a concrete fresh document. -/
theorem claim_C4_witness :
    mapLookup "/x"
      ((Document.AddOperation
          (Document.AddOperation (NewDocument "T" "1") "/x" "GET" (NewOperation "a" "" ""))
          "/x" "POST" (NewOperation "b" "" "")).paths.getD []) =
      some (PathItem.mk (some (NewOperation "a" "" ""))
        (some (NewOperation "b" "" "")) none none none none none none) :=
  (claim_C4 (NewDocument "T" "1") "/x" (NewOperation "a" "" "")
    (NewOperation "b" "" "") rfl).2

/-- C6 counterexample: on a document whose `PathItem` at `/x` already has a
GET operation, `AddOperation(/x, "FOO", …)` leaves GET populated — so for an
arbitrary starting document the eight slots are not left unset, only
unchanged. -/
theorem claim_C6_counterexample :
    (match mapLookup "/x" ((Document.AddOperation
        ⟨"3.0.3", zeroInfo, none,
          some [("/x", PathItem.mk (some (NewOperation "b" "" "")) none none none
            none none none none)],
          none, none, none, none⟩
        "/x" "FOO" (NewOperation "a" "" "")).paths.getD []) with
      | some pi => pi.get
      | none => none) = some (NewOperation "b" "" "") := rfl

/-- C6 (amended): for a method name that is none of the eight recognized
ones, `AddOperation` returns normally (it is total: no error is reported),
and the `PathItem` stored at `p` is the previous one unchanged — the
operation is silently dropped (the path entry itself is created, empty,
when absent; in particular all eight slots are unset when the path was
fresh). -/
theorem claim_C6 (d : Document) (p m : String) (op : Operation)
    (hm : m ∉ ["GET", "POST", "PUT", "DELETE", "PATCH", "HEAD", "OPTIONS", "TRACE"]) :
    mapLookup p ((d.AddOperation p m op).paths.getD []) =
      some ((mapLookup p (d.paths.getD [])).getD zeroPathItem) := by
  simp only [List.mem_cons, List.mem_singleton, not_or] at hm
  obtain ⟨h1, h2, h3, h4, h5, h6, h7, h8, -⟩ := hm
  simp only [Document.AddOperation, Document.GetPath]
  cases hl : mapLookup p (d.paths.getD []) with
  | some pi =>
    cases pi with
    | mk g po pu dl pa h o t =>
      simp only [if_neg h1, if_neg h2, if_neg h3, if_neg h4, if_neg h5, if_neg h6,
        if_neg h7, if_neg h8, Option.getD_some]
      exact mapLookup_insert_self p _ _
  | none =>
    simp only [Document.AddPath, zeroPathItem, Option.getD_some]
    simp only [if_neg h1, if_neg h2, if_neg h3, if_neg h4, if_neg h5, if_neg h6,
      if_neg h7, if_neg h8]
    exact mapLookup_insert_self p _ _

/-- C6 witness: the amended claim at a concrete unrecognized method name on
a fresh document. -/
theorem claim_C6_witness :
    mapLookup "/x" (((NewDocument "T" "1").AddOperation "/x" "FOO"
        (NewOperation "a" "" "")).paths.getD []) =
      some ((mapLookup "/x" ((NewDocument "T" "1").paths.getD [])).getD zeroPathItem) :=
  claim_C6 (NewDocument "T" "1") "/x" "FOO" (NewOperation "a" "" "") (by decide)

/-- C5 counterexample: an `Operation` whose `Responses` map is nil (the Go
zero value) serializes with `"responses": null` — the key is present but
its value is the JSON `null`, so the serialized `responses` value is not
non-nullable for every `Operation`. -/
theorem claim_C5_counterexample :
    getF (encObjFields (encOperation
        (.mk none "" "" none "" none none none none false none none))) "responses" =
      some .null := by
  rw [encOperation]
  simp [encObjFields, mkObj, collapse, getF, mapReqE]

/-- C5 (amended): every serialized `Operation` contains the `responses` key
— with the object encoding of the map whenever the map is non-nil (even
empty, as for `NewOperation`-built operations, giving `{}`), and `null`
only for the nil map.  The required keys `paths`, `info` and `openapi` of a
`Document` are always emitted, and unset optional fields (e.g. an empty
`summary` or nil `tags`) are omitted. -/
theorem claim_C5 :
    (∀ op : Operation,
      getF (encObjFields (encOperation op)) "responses" =
        mapReqE encResponse op.responses) ∧
    (∀ op : Operation, ∀ m, op.responses = some m →
      getF (encObjFields (encOperation op)) "responses" =
        some (.obj (m.map (fun q => (q.1, encResponse q.2))))) ∧
    getF (encObjFields (encOperation (NewOperation "getUser" "Get User" "desc")))
      "responses" = some (.obj []) ∧
    (∀ d : Document,
      getF (encObjFields (encDocument d)) "paths" = mapReqE encPathItem d.paths ∧
      getF (encObjFields (encDocument d)) "info" = some (encInfo d.info) ∧
      getF (encObjFields (encDocument d)) "openapi" = some (.str d.openapi)) ∧
    (∀ op : Operation, op.summary = "" →
      getF (encObjFields (encOperation op)) "summary" = none) ∧
    (∀ op : Operation, op.tags = none →
      getF (encObjFields (encOperation op)) "tags" = none) := by
  have hop : ∀ (op : Operation) (k : String),
      getF (encObjFields (encOperation op)) k =
        (match op with
          | .mk tg sm ds ed oid pa rb rs cb dp sec srv =>
            fLook [("tags", arrOpt Json.str tg), ("summary", strOpt sm),
              ("description", strOpt ds), ("externalDocs", ptrOpt encExternalDocs ed),
              ("operationId", strOpt oid), ("parameters", arrOpt encParameter pa),
              ("requestBody", ptrOpt encRequestBody rb),
              ("responses", mapReqE encResponse rs), ("callbacks", encCallbacksF cb),
              ("deprecated", boolOpt dp), ("security", arrOpt encSecReqE sec),
              ("servers", arrOpt encServer srv)] k) := by
    intro op k
    cases op with
    | mk tg sm ds ed oid pa rb rs cb dp sec srv =>
      rw [encOperation]
      have hnd : (List.map Prod.fst [("tags", arrOpt Json.str tg), ("summary", strOpt sm),
          ("description", strOpt ds), ("externalDocs", ptrOpt encExternalDocs ed),
          ("operationId", strOpt oid), ("parameters", arrOpt encParameter pa),
          ("requestBody", ptrOpt encRequestBody rb), ("responses", mapReqE encResponse rs),
          ("callbacks", encCallbacksF cb), ("deprecated", boolOpt dp),
          ("security", arrOpt encSecReqE sec), ("servers", arrOpt encServer srv)]).Nodup := by
        simp
      simp only [encObjFields, mkObj, getF_collapse hnd]
  have hdoc : ∀ (d : Document) (k : String),
      getF (encObjFields (encDocument d)) k =
        fLook [("openapi", strReq d.openapi), ("info", some (encInfo d.info)),
          ("servers", arrOpt encServer d.servers),
          ("paths", mapReqE encPathItem d.paths),
          ("components", ptrOpt encComponents d.components),
          ("security", arrOpt encSecReqE d.security),
          ("tags", arrOpt encTag d.tags),
          ("externalDocs", ptrOpt encExternalDocs d.externalDocs)] k := by
    intro d k
    have hnd : (List.map Prod.fst [("openapi", strReq d.openapi),
        ("info", some (encInfo d.info)), ("servers", arrOpt encServer d.servers),
        ("paths", mapReqE encPathItem d.paths),
        ("components", ptrOpt encComponents d.components),
        ("security", arrOpt encSecReqE d.security), ("tags", arrOpt encTag d.tags),
        ("externalDocs", ptrOpt encExternalDocs d.externalDocs)]).Nodup := by simp
    simp only [encDocument, encObjFields, mkObj, getF_collapse hnd]
  refine ⟨?_, ?_, ?_, ?_, ?_, ?_⟩
  · intro op
    rw [hop]
    cases op with
    | mk tg sm ds ed oid pa rb rs cb dp sec srv =>
      simp [fLook, Operation.responses]
  · intro op m hm
    rw [hop]
    cases op with
    | mk tg sm ds ed oid pa rb rs cb dp sec srv =>
      simp only [Operation.responses] at hm
      subst hm
      simp [fLook, mapReqE]
  · rw [hop]
    simp [NewOperation, fLook, mapReqE]
  · intro d
    refine ⟨?_, ?_, ?_⟩ <;> rw [hdoc] <;> simp [fLook, strReq]
  · intro op hs
    rw [hop]
    cases op with
    | mk tg sm ds ed oid pa rb rs cb dp sec srv =>
      simp only [Operation.summary] at hs
      subst hs
      simp [fLook, strOpt]
  · intro op ht
    rw [hop]
    cases op with
    | mk tg sm ds ed oid pa rb rs cb dp sec srv =>
      simp only [Operation.tags] at ht
      subst ht
      simp [fLook, arrOpt]

/-- C5 witness: the amended claim's non-nil case at a concrete operation
with one response. -/
theorem claim_C5_witness :
    getF (encObjFields (encOperation (.mk none "" "" none "" none none
        (some [("200", NewResponse "ok")]) none false none none))) "responses" =
      some (.obj [("200", encResponse (NewResponse "ok"))]) :=
  claim_C5.2.1 (.mk none "" "" none "" none none
    (some [("200", NewResponse "ok")]) none false none none)
    [("200", NewResponse "ok")] rfl

/-- Operations reachable from `NewOperation` through chained builder calls
(the fallible response-adding builders contribute their successful results). -/
inductive OpReach : Operation → Prop where
  | new (operationID summary description : String) :
      OpReach (NewOperation operationID summary description)
  | withTags {o} (tags : List String) : OpReach o → OpReach (o.WithTags tags)
  | withTag {o} (tag : String) : OpReach o → OpReach (o.WithTag tag)
  | withDeprecated {o} : OpReach o → OpReach o.WithDeprecated
  | withParameter {o} (param : Parameter) : OpReach o → OpReach (o.WithParameter param)
  | withPathParameter {o} (name description : String) (schema : Option Schema) :
      OpReach o → OpReach (o.WithPathParameter name description schema)
  | withQueryParameter {o} (name description : String) (required : Bool)
      (schema : Option Schema) :
      OpReach o → OpReach (o.WithQueryParameter name description required schema)
  | withHeaderParameter {o} (name description : String) (required : Bool)
      (schema : Option Schema) :
      OpReach o → OpReach (o.WithHeaderParameter name description required schema)
  | withRequestBody {o} (description : String) (required : Bool)
      (content : Option (List (String × MediaType))) :
      OpReach o → OpReach (o.WithRequestBody description required content)
  | withJSONRequestBody {o} (description : String) (required : Bool)
      (schema : Option Schema) :
      OpReach o → OpReach (o.WithJSONRequestBody description required schema)
  | withResponse {o o'} (code description : String) (response : Response) :
      OpReach o → o.WithResponse code description response = some o' → OpReach o'
  | withJSONResponse {o o'} (code description : String) (schema : Option Schema) :
      OpReach o → o.WithJSONResponse code description schema = some o' → OpReach o'
  | withOkResponse {o o'} (description : String) (schema : Option Schema) :
      OpReach o → o.WithOkResponse description schema = some o' → OpReach o'
  | withCreatedResponse {o o'} (description : String) (schema : Option Schema) :
      OpReach o → o.WithCreatedResponse description schema = some o' → OpReach o'
  | withNoContentResponse {o o'} :
      OpReach o → o.WithNoContentResponse = some o' → OpReach o'
  | withBadRequestResponse {o o'} (description : String) :
      OpReach o → o.WithBadRequestResponse description = some o' → OpReach o'
  | withUnauthorizedResponse {o o'} (description : String) :
      OpReach o → o.WithUnauthorizedResponse description = some o' → OpReach o'
  | withForbiddenResponse {o o'} (description : String) :
      OpReach o → o.WithForbiddenResponse description = some o' → OpReach o'
  | withNotFoundResponse {o o'} (description : String) :
      OpReach o → o.WithNotFoundResponse description = some o' → OpReach o'
  | withInternalServerErrorResponse {o o'} (description : String) :
      OpReach o → o.WithInternalServerErrorResponse description = some o' → OpReach o'
  | withExternalDocs {o} (url description : String) :
      OpReach o → OpReach (o.WithExternalDocs url description)

theorem withResponse_responses {o o' : Operation} {c ds : String} {r : Response}
    (h : o.WithResponse c ds r = some o') : ∃ m', o'.responses = some m' := by
  cases o with
  | mk tg sm ds' ed oid pa rb rs cb dp sec srv =>
    cases rs with
    | none => simp [Operation.WithResponse] at h
    | some m =>
      simp only [Operation.WithResponse] at h
      cases h
      exact ⟨_, rfl⟩

theorem opReach_responses_ne_none {o : Operation} (h : OpReach o) :
    o.responses ≠ none := by
  induction h with
  | new id s d => simp [NewOperation, Operation.responses]
  | withTags tags _ ih =>
    rename_i o _
    cases o
    simpa [Operation.WithTags, Operation.responses] using ih
  | withTag tag _ ih =>
    rename_i o _
    cases o
    simpa [Operation.WithTag, Operation.responses] using ih
  | withDeprecated _ ih =>
    rename_i o _
    cases o
    simpa [Operation.WithDeprecated, Operation.responses] using ih
  | withParameter param _ ih =>
    rename_i o _
    cases o
    simpa [Operation.WithParameter, Operation.responses] using ih
  | withPathParameter name ds sc _ ih =>
    rename_i o _
    cases o
    simpa [Operation.WithPathParameter, Operation.WithParameter,
      Operation.responses] using ih
  | withQueryParameter name ds rq sc _ ih =>
    rename_i o _
    cases o
    simpa [Operation.WithQueryParameter, Operation.WithParameter,
      Operation.responses] using ih
  | withHeaderParameter name ds rq sc _ ih =>
    rename_i o _
    cases o
    simpa [Operation.WithHeaderParameter, Operation.WithParameter,
      Operation.responses] using ih
  | withRequestBody ds rq ct _ ih =>
    rename_i o _
    cases o
    simpa [Operation.WithRequestBody, Operation.responses] using ih
  | withJSONRequestBody ds rq sc _ ih =>
    rename_i o _
    cases o
    simpa [Operation.WithJSONRequestBody, Operation.WithRequestBody,
      Operation.responses] using ih
  | withResponse c ds r _ hr ih =>
    obtain ⟨m', hm'⟩ := withResponse_responses hr
    simp [hm']
  | withJSONResponse c ds sc _ hr ih =>
    obtain ⟨m', hm'⟩ := withResponse_responses hr
    simp [hm']
  | withOkResponse ds sc _ hr ih =>
    obtain ⟨m', hm'⟩ := @withResponse_responses _ _ "200" ds _ hr
    simp [hm']
  | withCreatedResponse ds sc _ hr ih =>
    obtain ⟨m', hm'⟩ := @withResponse_responses _ _ "201" ds _ hr
    simp [hm']
  | withNoContentResponse _ hr ih =>
    obtain ⟨m', hm'⟩ := withResponse_responses hr
    simp [hm']
  | withBadRequestResponse ds _ hr ih =>
    obtain ⟨m', hm'⟩ := withResponse_responses hr
    simp [hm']
  | withUnauthorizedResponse ds _ hr ih =>
    obtain ⟨m', hm'⟩ := withResponse_responses hr
    simp [hm']
  | withForbiddenResponse ds _ hr ih =>
    obtain ⟨m', hm'⟩ := withResponse_responses hr
    simp [hm']
  | withNotFoundResponse ds _ hr ih =>
    obtain ⟨m', hm'⟩ := withResponse_responses hr
    simp [hm']
  | withInternalServerErrorResponse ds _ hr ih =>
    obtain ⟨m', hm'⟩ := withResponse_responses hr
    simp [hm']
  | withExternalDocs url ds _ ih =>
    rename_i o _
    cases o
    simpa [Operation.WithExternalDocs, Operation.responses] using ih

/-- C9 counterexample: `NewParameter` leaves the `Examples` and `Content`
collection fields nil, so not every entity constructor initializes its
collection fields to empty non-nil containers. -/
theorem claim_C9_counterexample :
    (NewParameter "id" "path" "the id").examples = none ∧
    (NewParameter "id" "path" "the id").content = none :=
  ⟨rfl, rfl⟩

/-- C9 (amended): constructors initialize the collection containers their
entity's chained builder calls rely on (though `NewParameter` leaves its
unused `Examples`/`Content` maps nil): every `Operation` reachable from
`NewOperation` through chained builder calls has a non-nil `Responses` map,
so `WithResponse` never faults — it totally succeeds and stores the
response under the given status code; in particular `NewOperation` yields a
non-nil empty `Responses` map. -/
theorem claim_C9 :
    (∀ o : Operation, OpReach o →
      o.responses ≠ none ∧
      ∀ code description response, ∃ o',
        o.WithResponse code description response = some o' ∧
        mapLookup code (o'.responses.getD []) = some response) ∧
    (NewOperation "id" "s" "d").responses = some [] := by
  constructor
  · intro o ho
    have hne := opReach_responses_ne_none ho
    refine ⟨hne, ?_⟩
    intro code description response
    cases o with
    | mk tg sm ds ed oid pa rb rs cb dp sec srv =>
      cases rs with
      | none => simp [Operation.responses] at hne
      | some m =>
        refine ⟨_, rfl, ?_⟩
        simp only [Operation.responses, Option.getD_some]
        exact mapLookup_insert_self code response m
  · rfl

/-- C9 witness: the amended claim at a concrete one-step chain. -/
theorem claim_C9_witness :
    ∃ o', (NewOperation "getUser" "Get User" "d").WithResponse "200" "ok"
        (NewResponse "ok") = some o' ∧
      mapLookup "200" (o'.responses.getD []) = some (NewResponse "ok") :=
  (claim_C9.1 (NewOperation "getUser" "Get User" "d")
    (OpReach.new "getUser" "Get User" "d")).2 "200" "ok" (NewResponse "ok")

/-- C3 counterexample: the basic constructor explicitly sets `Tags` to a
non-nil empty list, yet that field is absent from the encoded output and
comes back as the nil list after decoding — so decode-after-encode is not
structurally equal to the original on every explicitly set field. -/
theorem claim_C3_counterexample :
    (NewDocument "Test API" "1.0.0").tags = some [] ∧
    getF (encObjFields (encDocument (NewDocument "Test API" "1.0.0"))) "tags" = none ∧
    (decDocument (encDocument (NewDocument "Test API" "1.0.0"))).map Document.tags =
      .ok none :=
  ⟨rfl, rfl, rfl⟩

/-- C3 (amended): for every document whose Go maps are in canonical form
(sorted, duplicate-free key lists — as every Go map observably is, and as
all builder-produced documents are), decoding the encoding yields exactly
the normal form of the document: equal to the original on every field
except that empty optional collections become absent, interface-held nulls
become unset, and an `AdditionalProperties` with neither alternative set
becomes the explicit default `Bool=false`; unset optional fields stay
absent.  The `openapi` field and `Info` (hence `Info.Title` and
`Info.Version`) always round-trip exactly. -/
theorem claim_C3 (d : Document) (hwf : wfDocument d = true) :
    decDocument (encDocument d) = .ok (normDocument d) ∧
    (normDocument d).info = d.info ∧
    (normDocument d).openapi = d.openapi :=
  ⟨decDocument_enc d hwf, rfl, rfl⟩

/-- C3 witness: the amended claim at the acceptance-test document: the
round-trip succeeds and `Info.Title`/`Info.Version` are reproduced. -/
theorem claim_C3_witness :
    wfDocument (NewDocument "Test API" "1.0.0") = true ∧
    decDocument (encDocument (NewDocument "Test API" "1.0.0")) =
      .ok (normDocument (NewDocument "Test API" "1.0.0")) ∧
    (normDocument (NewDocument "Test API" "1.0.0")).info.title = "Test API" ∧
    (normDocument (NewDocument "Test API" "1.0.0")).info.version = "1.0.0" :=
  ⟨rfl, (claim_C3 (NewDocument "Test API" "1.0.0") rfl).1,
    congrArg Info.title ((claim_C3 (NewDocument "Test API" "1.0.0") rfl).2.1),
    congrArg Info.version ((claim_C3 (NewDocument "Test API" "1.0.0") rfl).2.1)⟩
